import Mathlib
/-!
Shallow embedding of the navigation / parsing core of `ggwalker.py`
(Gopher-and-Gemini-Walker).  The Python program is a single file; the
definitions below translate its state-carrying functions into pure Lean
functions over an explicit filesystem model and an explicit walker state.

Modelling conventions:
* `os.sep` is `'/'` (the program targets POSIX paths).
* Python strings are Lean `String`s; all string primitives used by the
  program (`strip`, `split`, `startswith`, slicing, `os.path.join`,
  `os.path.dirname`, `str.replace(old,new,1)`) are re-implemented
  structurally over `String.data` so that concrete runs reduce by `decide`.
* The filesystem is a value of type `FS` (files with their text lines, and
  directories with their entry names).  `open`/`readline` always succeed on
  paths for which `FS.isFile` holds, mirroring a race-free disk.
* Printing and ANSI styling have no effect on the navigation state and are
  dropped; only state effects (fields of `Walker`) are modelled.
* An uncaught Python exception is modelled by `Except.error (e, w)` where
  `w` is the state already mutated when the exception is raised:
  `PyErr.assertFail` for a failing `assert`, `PyErr.indexError` for an
  out-of-range sequence subscript.
-/

/-- Python errors that the modelled code can raise. -/
inductive PyErr where
  | assertFail
  | indexError
deriving DecidableEq, Repr

/-- The characters Python's `str.strip()` (no argument) removes, as used by
the program (space, tab, carriage return, newline). -/
def wsChars : List Char := [' ', '\t', '\r', '\n']

/-- Build a string back from a character list. -/
def ofChars (cs : List Char) : String := ⟨cs⟩

/-- First character of a string, if any (Python `s[0]` guarded by truthiness). -/
def strHead (s : String) : Option Char := s.data.head?

/-- Python `s[n:]`. -/
def strDrop (s : String) (n : Nat) : String := ⟨s.data.drop n⟩

/-- Length of a string in characters. -/
def strLen (s : String) : Nat := s.data.length

/-- Python `s[:-n]` for `n ≤ len(s)` (used as `path[:-len(suffix)]`). -/
def strDropRight (s : String) (n : Nat) : String := ⟨s.data.take (s.data.length - n)⟩

/-- Python `s.startswith(p)`. -/
def startsW (s p : String) : Bool := p.data.isPrefixOf s.data

/-- Python `s.endswith(p)`. -/
def endsW (s p : String) : Bool := p.data.isSuffixOf s.data

/-- Python `s.lstrip(cs)`: drop the leading characters that belong to `cs`. -/
def stripLeft (cs : List Char) (s : String) : String :=
  ⟨s.data.dropWhile (fun c => cs.contains c)⟩

/-- Python `s.rstrip(cs)`: drop the trailing characters that belong to `cs`. -/
def stripRight (cs : List Char) (s : String) : String :=
  ⟨(s.data.reverse.dropWhile (fun c => cs.contains c)).reverse⟩

/-- Python `s.strip(cs)`: drop characters of `cs` from both ends. -/
def stripBoth (cs : List Char) (s : String) : String :=
  stripRight cs (stripLeft cs s)

/-- Split a character list at every occurrence of `sep`, keeping empty
pieces, as Python `str.split(sep)` does (`"" ↦ [""]`). -/
def splitCh (sep : Char) : List Char → List (List Char)
  | [] => [[]]
  | c :: cs =>
    let r := splitCh sep cs
    if c = sep then [] :: r
    else
      match r with
      | [] => [[c]]
      | h :: t => (c :: h) :: t

/-- Python `s.split(sep)` for a one-character separator. -/
def pySplit (sep : Char) (s : String) : List String := (splitCh sep s.data).map ofChars

/-- Longest initial run of characters not in `cs` (first field of a
`re.split` on a character class, applied to a string with no leading
separator). -/
def takeUntil (cs : List Char) (s : String) : String :=
  ⟨s.data.takeWhile (fun c => !cs.contains c)⟩

/-- ASCII letter test (`[a-zA-Z]` in the program's regexes). -/
def isAsciiLetter (c : Char) : Bool :=
  ('a' ≤ c && c ≤ 'z') || ('A' ≤ c && c ≤ 'Z')

/-- Python `re.search(r'^[a-zA-Z]+://', s)` as used by `link_type`,
`gopher_real_link` and `visit_stack`: one or more ASCII letters followed by
`://` at the very start of the string. -/
def isUrlPattern (s : String) : Bool :=
  let letters := s.data.takeWhile isAsciiLetter
  !letters.isEmpty && startsW (ofChars (s.data.drop letters.length)) "://"

/-- Python `re.match(r'^[a-z]*:', s)` of the offline gemini walker: zero or
more lowercase ASCII letters followed by a colon. -/
def isLowerColon (s : String) : Bool :=
  startsW (ofChars (s.data.dropWhile (fun c => 'a' ≤ c && c ≤ 'z'))) ":"

/-- Python `str.isdigit()` restricted to ASCII inputs: non-empty and all
decimal digits. -/
def isDigitStr (s : String) : Bool :=
  !s.data.isEmpty && s.data.all (fun c => '0' ≤ c && c ≤ '9')

/-- Numeric value of an ASCII decimal string (Python `int(s)` on inputs
satisfying `isDigitStr`). -/
def digitsToNat (s : String) : Nat :=
  s.data.foldl (fun a c => a * 10 + (c.toNat - '0'.toNat)) 0

/-- Python `os.path.join(a, b)` for POSIX paths (only the two-argument form
is used by the program). -/
def pyJoin (a b : String) : String :=
  if startsW b "/" then b
  else if a = "" then b
  else if endsW a "/" then a ++ b
  else a ++ "/" ++ b

/-- Python `os.path.dirname(p)` for POSIX paths: everything up to the last
separator, with trailing separators removed unless the result is all
separators. -/
def pyDirname (p : String) : String :=
  let head := ofChars ((p.data.reverse.dropWhile (fun c => c ≠ '/')).reverse)
  if head ≠ "" && !head.data.all (fun c => c = '/') then
    stripRight ['/'] head
  else head

/-- Python `s.replace(old, new, 1)`: replace the first occurrence of `old`
(the whole string is prefixed when `old` is empty, as in Python). -/
def replaceFirstCh (old new : List Char) : List Char → List Char
  | [] => []
  | c :: cs =>
    if old.isPrefixOf (c :: cs) then new ++ (c :: cs).drop old.length
    else c :: replaceFirstCh old new cs

/-- Python `s.replace(old, new, 1)` on strings. -/
def pyReplaceFirst (s old new : String) : String :=
  if old.data.isEmpty then new ++ s
  else ⟨replaceFirstCh old.data new.data s.data⟩

/-- Insert into a Python `set` modelled as a duplicate-free list in first
insertion order (iteration order of CPython sets is unspecified; every
theorem below is insensitive to that order or evaluates a concrete run). -/
def addSet (l : List String) (x : String) : List String :=
  if l.contains x then l else l ++ [x]

/-- Union of a Python `set` with a list of new members (`set.update`). -/
def addSetAll (l : List String) (xs : List String) : List String :=
  xs.foldl addSet l

/-- Filesystem model: text files with their logical lines (line content
without the trailing newline) and directories with their entry basenames. -/
structure FS where
  files : List (String × List String)
  dirs : List (String × List String)
deriving DecidableEq, Repr

/-- `os.path.isfile`. -/
def FS.isFile (fs : FS) (p : String) : Bool := fs.files.any (fun e => e.1 = p)

/-- `os.path.isdir`. -/
def FS.isDir (fs : FS) (p : String) : Bool := fs.dirs.any (fun e => e.1 = p)

/-- `os.path.exists` (the program only probes files and directories). -/
def FS.pathExists (fs : FS) (p : String) : Bool := fs.isFile p || fs.isDir p

/-- Logical lines of a file (each line as read then `rstrip`-ed of its
newline; missing files give `[]`, but every reader checks `isFile` first). -/
def FS.lines (fs : FS) (p : String) : List String :=
  ((fs.files.find? (fun e => e.1 = p)).map Prod.snd).getD []

/-- Raw lines as Python file iteration yields them: each logical line with
its trailing `'\n'` (the modelled files end with a final newline). -/
def FS.rawLines (fs : FS) (p : String) : List String :=
  (fs.lines p).map (fun l => l ++ "\n")

/-- `os.listdir`. -/
def FS.listdir (fs : FS) (p : String) : List String :=
  ((fs.dirs.find? (fun e => e.1 = p)).map Prod.snd).getD []

/-- The mutable state of the `walker` command object: the NavigationContext
of the specification.  Display-only fields (`columns`, `minWidth`,
`paging`, `last_cmd`) never influence navigation state and are omitted. -/
structure Walker where
  processing : String
  paths : List String
  site_urls : List String
  base : String
  links : List String
  stack : List String
  pStack : Int
deriving DecidableEq, Repr

/-- Result of an operation that can leave a mutated state behind an
uncaught exception. -/
abbrev PyRes := Except (PyErr × Walker) Walker

/-- The successful final state of a run, if any. -/
def resOk : PyRes → Option Walker
  | .ok w => some w
  | .error _ => none

/-- Python list subscript semantics: negative indices count from the end,
remaining out-of-range subscripts raise `IndexError` (`none`). -/
def pyIdx (l : List String) (i : Int) : Option String :=
  let n : Int := l.length
  let j := if i < 0 then i + n else i
  if h : 0 ≤ j ∧ j.toNat < l.length then some (l.get ⟨j.toNat, h.2⟩) else none

/-- List element at a non-negative `Int` index, used only behind guards
that ensure the index is in range. -/
def idxGet (l : List String) (i : Int) : String :=
  if h : 0 ≤ i ∧ i.toNat < l.length then l.get ⟨i.toNat, h.2⟩ else ""

/-- Python `l[:j]` (slice from the start, with Python's clamping of
negative and oversized bounds). -/
def pySliceTo (l : List String) (j : Int) : List String :=
  let n : Int := l.length
  let j' := if j < 0 then j + n else j
  let j'' := max 0 (min j' n)
  l.take j''.toNat

/-- `walker.update_stack`: the single commit step of every successful page
load.  Clears the link table; if the place equals the one the cursor points
at, history is untouched, otherwise forward entries are cut and the place
is appended. -/
def update_stack (w : Walker) (place : String) : PyRes :=
  let w := { w with links := [] }
  if w.stack ≠ [] then
    match pyIdx w.stack w.pStack with
    | none => .error (.indexError, w)
    | some x =>
      if x = place then .ok w
      else
        let stack' := if w.pStack ≠ (w.stack.length : Int) - 1
          then pySliceTo w.stack (w.pStack + 1) else w.stack
        .ok { w with stack := stack' ++ [place], pStack := w.pStack + 1 }
  else
    let stack' := if w.pStack ≠ (w.stack.length : Int) - 1
      then pySliceTo w.stack (w.pStack + 1) else w.stack
    .ok { w with stack := stack' ++ [place], pStack := w.pStack + 1 }

/-- `walker.back_stack`: move the cursor one step back when possible and
return the place to re-dispatch on (the site base otherwise). -/
def back_stack (w : Walker) : String × Walker :=
  if 0 ≤ w.pStack - 1 ∧ w.pStack - 1 < (w.stack.length : Int) then
    let w' := { w with pStack := w.pStack - 1 }
    (idxGet w'.stack w'.pStack, w')
  else (w.base, w)

/-- `walker.forward_stack`: move the cursor one step forward when possible
and return the place to re-dispatch on (the top entry when already at the
top, the site base otherwise). -/
def forward_stack (w : Walker) : String × Walker :=
  if 0 ≤ w.pStack + 1 ∧ w.pStack + 1 < (w.stack.length : Int) then
    let w' := { w with pStack := w.pStack + 1 }
    (idxGet w'.stack w'.pStack, w')
  else if w.stack ≠ [] ∧ w.pStack = (w.stack.length : Int) - 1 then
    (idxGet w.stack w.pStack, w)
  else (w.base, w)

/-- `walker.current_stack`: the place the cursor points at, or the site
base when the history is empty. -/
def current_stack (w : Walker) : String :=
  if 0 ≤ w.pStack ∧ w.pStack < (w.stack.length : Int) then idxGet w.stack w.pStack
  else w.base

/-- `walker.clear_stack`. -/
def clear_stack (w : Walker) : Walker := { w with stack := [], pStack := -1 }

/-- The recognized Gopher item tags (`gopherItems` in the source, with its
duplicated `'s'` kept verbatim). -/
def gopherItems : List Char :=
  ['0', '1', '2', '3', '4', '5', '6', '7', '8', '9', '+', 'T', 'g',
   'I', 'h', 's', 'i', 's']

/-- Tail of `gopher_real_link` after the `URL:` escape has been handled:
`selector[0]` raises `IndexError` on an empty selector; a selector not
starting with the separator is returned as-is; with both host and port the
result is an assembled `gopher://` URL (port 70 omitted); otherwise the
selector itself. -/
def gopher_real_link_rest (selector host port : String) : Except PyErr String :=
  match strHead selector with
  | none => .error .indexError
  | some c =>
    if c ≠ '/' then .ok selector
    else if host ≠ "" ∧ port ≠ "" then
      .ok ("gopher://" ++ host ++ (if port = "70" then "" else ":" ++ port) ++ selector)
    else .ok selector

/-- Selector handling of `gopher_real_link`: an HTML item whose selector
carries the literal `URL:` escape is stripped; when the remainder matches
the absolute-URL pattern it is returned verbatim, otherwise processing
continues on the stripped selector. -/
def gopher_real_link_sel (item : Char) (selector host port : String) : Except PyErr String :=
  if item = 'h' && startsW selector "URL:" then
    if isUrlPattern (stripBoth wsChars (strDrop selector 4)) then
      .ok (stripBoth wsChars (strDrop selector 4))
    else gopher_real_link_rest (stripBoth wsChars (strDrop selector 4)) host port
  else gopher_real_link_rest selector host port

/-- `gopher_real_link(item, parts)`: turn the tab fields of a Gopher map
line into a raw link target.  The source asserts `len(parts) > 1`
(`assertFail` when violated); host and port default to `''` when the line
has fewer than 3 or 4 fields. -/
def gopher_real_link (item : Char) (parts : List String) : Except PyErr String :=
  if hlen : parts.length ≤ 1 then .error .assertFail
  else
    gopher_real_link_sel item (parts.get ⟨1, by omega⟩)
      (if parts.length < 3 then "" else stripBoth wsChars (parts.getD 2 ""))
      (if parts.length < 4 then "" else stripBoth wsChars (parts.getD 3 ""))

/-- The extension-to-MIME table of Python's `mimetypes.guess_type`,
restricted to the extensions exercised in this development (the program
consults no other part of the table). -/
def mimeTable : List (String × String) :=
  [(".txt", "text/plain"), (".html", "text/html"), (".htm", "text/html"),
   (".gif", "image/gif"), (".jpg", "image/jpeg"), (".jpeg", "image/jpeg"),
   (".png", "image/png"), (".pdf", "application/pdf"), (".mp3", "audio/mpeg"),
   (".wav", "audio/x-wav"), (".mp4", "video/mp4"), (".csv", "text/csv")]

/-- `mimetypes.MimeTypes().guess_type(name)[0]` as the program uses it:
a MIME string derived from the file extension, or `None`. -/
def guessMime (name : String) : Option String :=
  (mimeTable.find? (fun e => endsW name e.1)).map Prod.snd

/-- Major part of a MIME string (`mime.split('/')[0]`). -/
def mimeMajor (m : String) : String := takeUntil ['/'] m

/-- `gopher_file_item(name)`: infer a Gopher item tag from a file name by
MIME sniffing. -/
def gopher_file_item (name : String) : Char :=
  match guessMime name with
  | none =>
    if endsW name "gophermap" || endsW name ".gmi" || endsW name ".gemini" then '0'
    else '1'
  | some mime =>
    if mime = "image/gif" then 'g'
    else if mime = "text/html" then 'h'
    else if mimeMajor mime = "text" then '0'
    else if mimeMajor mime = "application" || mimeMajor mime = "video" then '9'
    else if mimeMajor mime = "image" then 'I'
    else if mimeMajor mime = "audio" then 's'
    else '9'

/-- `link_type(item, text)`: the link classifier, returning whether the
target is local and its content category. -/
def link_type (item : Char) (text : String) : Bool × String :=
  let loc := !isUrlPattern text
  let item := if item = '>' then gopher_file_item text else item
  if item ∈ ['0', '4', '5', '6', '9', 'g', 'I', 'h', 's'] then (loc, "file")
  else if item = '1' then (loc, "dir")
  else if item = 'i' then (true, "txt")
  else if item = '3' then (loc, "err")
  else if item = '+' then (loc, "svr")
  else if item ∈ ['8', '9'] then (loc, "session")
  else if item ∈ ['2', '7'] then (loc, "search")
  else (loc, "unk")

/-- State effect of one line of `process_gopher_map`'s read loop: blank,
informational and malformed lines only print; a recognized tag with at
least two tab fields appends `item + gopher_real_link(item, part)` to the
link table. -/
def gopher_step (w : Walker) (line : String) : PyRes :=
  match pySplit '\t' (stripRight ['\r', '\n'] line) with
  | [] => .ok w
  | p0 :: rest =>
    match strHead p0 with
    | none => .ok w
    | some item =>
      if item = 'i' ∧ (p0 :: rest).length > 1 then .ok w
      else if (p0 :: rest).length > 1 ∧ item ∈ gopherItems then
        match gopher_real_link item (p0 :: rest) with
        | .error e => .error (e, w)
        | .ok s => .ok { w with links := w.links ++ [ofChars [item] ++ s] }
      else .ok w

/-- The `while True: readline` loop of `process_gopher_map`: run
`gopher_step` over the lines, propagating an uncaught exception. -/
def gopher_run : Walker → List String → PyRes
  | w, [] => .ok w
  | w, l :: ls =>
    match gopher_step w l with
    | .error e => .error e
    | .ok w' => gopher_run w' ls

/-- `process_gopher_map(name)`: on a missing file only an error is printed;
otherwise the processing mode becomes `gopher`, the page is committed
(`new_page` = banner + `update_stack`) and the map lines are scanned for
links.  A line whose selector subscript raises propagates the exception
with the state mutated so far. -/
def process_gopher_map (fs : FS) (w : Walker) (name : String) : PyRes :=
  if !fs.isFile name then .ok w
  else
    let w := { w with processing := "gopher" }
    match update_stack w name with
    | .error e => .error e
    | .ok w => gopher_run w (fs.lines name)

/-- State effect of one line of `process_gemini_map`'s read loop, on the
pair (fence flag, link table): fence toggles flip the flag, link lines
append `'>' + url`, every other line only prints. -/
def gemini_step (st : Bool × List String) (line : String) : Bool × List String :=
  let isFenced := st.1
  let links := st.2
  let line := stripRight ['\r', '\n'] line
  if startsW (stripLeft wsChars line) "```" then (!isFenced, links)
  else if isFenced then (isFenced, links)
  else if startsW (stripLeft wsChars line) "=>" then
    let rest := stripBoth wsChars (strDrop (stripBoth wsChars line) 2)
    let url := takeUntil wsChars rest
    (isFenced, links ++ [">" ++ stripBoth wsChars url])
  else (isFenced, links)

/-- `process_gemini_map(name)`: on a missing file only an error is printed;
otherwise the processing mode becomes `gemini`, the page is committed and
the link table is rebuilt from the link lines. -/
def process_gemini_map (fs : FS) (w : Walker) (name : String) : PyRes :=
  if !fs.isFile name then .ok w
  else
    let w := { w with processing := "gemini" }
    match update_stack w name with
    | .error e => .error e
    | .ok w =>
      let st := (fs.lines name).foldl gemini_step (false, w.links)
      .ok { w with links := st.2 }

/-- `process_text_file(name)`: opening a missing file is caught (`OSError`)
with no state change; otherwise the only state effect is the page commit. -/
def process_text_file (fs : FS) (w : Walker) (name : String) : PyRes :=
  if !fs.isFile name then .ok w
  else update_stack w name

/-- `process_external_app(name)`: commits the page, then delegates to
`xdg-open` (no further state effect; failures are caught). -/
def process_external_app (w : Walker) (name : String) : PyRes :=
  update_stack w name

/-- `process_url(url)`: commits the URL as the page, then opens a browser. -/
def process_url (w : Walker) (url : String) : PyRes :=
  update_stack w url

/-- `process_gopher_dir(name)`: synthesize a listing page for a directory
with no index: processing mode becomes `gopher`, the page is committed and
one link per entry is appended (`item + path relative to base`). -/
def process_gopher_dir (fs : FS) (w : Walker) (name : String) : PyRes :=
  let w := { w with processing := "gopher" }
  let entries := fs.listdir name
  match update_stack w name with
  | .error e => .error e
  | .ok w =>
    .ok { w with links := w.links ++ entries.map (fun filename =>
      let path := pyJoin name filename
      let item := if fs.isDir path then '1' else gopher_file_item filename
      ofChars [item] ++ pyReplaceFirst path w.base "") }

/-- `visit_file(name)`: render a plain file; a missing file or a file with
no guessable MIME type only reports an error. -/
def visit_file (fs : FS) (w : Walker) (name : String) : PyRes :=
  if !fs.isFile name then .ok w
  else
    match guessMime name with
    | none => .ok w
    | some mime =>
      if mimeMajor mime = "text" then process_text_file fs w name
      else process_external_app w name

/-- Inner loop of `rebase_link`: try each bookmarked path as a new base for
the link (after the current base failed); the first whose substitution
exists on disk becomes the new `base` and clears the history. -/
def rebase_paths (fs : FS) (w : Walker) (link url : String) : List String → Option (Walker × String)
  | [] => none
  | p :: rest =>
    let new := pyReplaceFirst link url p
    if fs.pathExists new then some ({ clear_stack w with base := p }, new)
    else rebase_paths fs w link url rest

/-- `rebase_link(link)`: for the first bookmarked site URL the link starts
with, substitute it with the current base; if that path exists return it
with the state untouched, else fall back to the other bookmarked paths.
Returns `""` when no substitution produced an existing path. -/
def rebase_go (fs : FS) (w : Walker) (link : String) : List String → Walker × String
  | [] => (w, "")
  | url :: rest =>
    if startsW link url then
      let new := pyReplaceFirst link url w.base
      if fs.pathExists new then (w, new)
      else
        match rebase_paths fs w link url w.paths with
        | some r => r
        | none => rebase_go fs w link rest
    else rebase_go fs w link rest

/-- `rebase_link(link)` over the walker's bookmarked site URLs. -/
def rebase_link (fs : FS) (w : Walker) (link : String) : Walker × String :=
  rebase_go fs w link w.site_urls

/-- `base_link(link)`: the directory anchor a local link is resolved
against — the site base for empty or separator-led targets, otherwise the
current place (itself when a directory, else its directory). -/
def base_link (fs : FS) (w : Walker) (link : String) : String :=
  if link = "" ∨ strHead link = some '/' then w.base
  else
    let stk := current_stack w
    if fs.isDir stk then stk else pyDirname stk

/-- The local path a link target resolves to once re-basing is out of the
picture: `os.path.join(self.base_link(rest), rest.strip(os.sep))` from
`visit_link`. -/
def resolve_local (fs : FS) (w : Walker) (rest : String) : String :=
  pyJoin (base_link fs w rest) (stripBoth ['/'] rest)

/-- `visit(place)`: validate the directory, then look for `gophermap`,
`index.gmi`, `index.gemini` in order; with none present fall back to a
synthesized listing only when the sticky processing mode is `gopher`
(every error path only prints). -/
def visit (fs : FS) (w : Walker) (place : String) : PyRes :=
  if !fs.isDir place then .ok w
  else
    let n1 := stripRight ['/'] place ++ "/" ++ "gophermap"
    if fs.isFile n1 then process_gopher_map fs w n1
    else
      let n2 := stripRight ['/'] place ++ "/" ++ "index.gmi"
      if fs.isFile n2 then process_gemini_map fs w n2
      else
        let n3 := stripRight ['/'] place ++ "/" ++ "index.gemini"
        if fs.isFile n3 then process_gemini_map fs w n3
        else if w.processing = "gopher" then process_gopher_dir fs w place
        else .ok w

/-- `visit_stack(place)`: re-dispatch on a place taken from the history
stack, by URL pattern, directory, then file suffix; an unknown place only
prints an error. -/
def visit_stack (fs : FS) (w : Walker) (place : String) : PyRes :=
  if isUrlPattern place then process_url w place
  else if fs.isDir place then visit fs w place
  else if fs.isFile place then
    if endsW place ".gmi" || endsW place ".gemini" then process_gemini_map fs w place
    else if endsW place "gophermap" then process_gopher_map fs w place
    else visit_file fs w place
  else .ok w

/-- Body of `visit_link(id)` before its `except IndexError` handler. -/
def visit_link_body (fs : FS) (w : Walker) (id : Nat) : PyRes :=
  match w.links.get? id with
  | none => .error (.indexError, w)
  | some link =>
    match strHead link with
    | none => .error (.indexError, w)
    | some item =>
      let rest := strDrop link 1
      let lk := link_type item rest
      let rb :=
        if !lk.1 && (startsW rest "gopher://" || startsW rest "gemini://") then
          rebase_link fs w rest
        else (w, "")
      let w := rb.1
      let stillRemote := rb.2 = ""
      let loc := if !stillRemote then true else lk.1
      let localLink := if !stillRemote then rb.2 else resolve_local fs w rest
      if loc ∧ lk.2 = "dir" then visit fs w localLink
      else if loc ∧ lk.2 = "file" then
        if endsW rest "gophermap" then process_gopher_map fs w localLink
        else if endsW rest ".gmi" || endsW rest ".gemini" then process_gemini_map fs w localLink
        else visit_file fs w localLink
      else if !loc then process_url w rest
      else .ok w

/-- `visit_link(id)`: follow the link at 0-based `id` in the current link
table; the whole body runs under `except IndexError`, so an out-of-range
id (and any inner `IndexError`) is reported and leaves the state the
handler saw. -/
def visit_link (fs : FS) (w : Walker) (id : Nat) : PyRes :=
  match visit_link_body fs w id with
  | .error (.indexError, w') => .ok w'
  | r => r

/-- `do_visit(line)`: the `visit` command.  The old base is remembered,
then `base` is cleared and the history reset *before* the argument is
validated; afterwards the chosen base is visited (or an error printed when
no path can be chosen). -/
def do_visit (fs : FS) (w : Walker) (line : String) : PyRes :=
  let path := stripBoth ['\'', '"', '\t', ' '] line
  let old := w.base
  let w := clear_stack { w with base := "" }
  if path ≠ "" then
    let w :=
      if isDigitStr path then
        if 0 < digitsToNat path ∧ digitsToNat path ≤ w.paths.length then
          { w with base := w.paths.getD (digitsToNat path - 1) "" }
        else w
      else if path ∈ w.paths then w
      else { w with base := stripRight ['/'] path }
    visit fs w w.base
  else if old ≠ "" then
    visit fs { w with base := old } old
  else if w.paths.length = 1 then
    visit fs { w with base := w.paths.getD 0 "" } (w.paths.getD 0 "")
  else .ok w

/-- `do_back`: move back in the history and re-dispatch. -/
def do_back (fs : FS) (w : Walker) : PyRes :=
  let bk := back_stack w
  visit_stack fs bk.2 bk.1

/-- `do_forward`: move forward in the history and re-dispatch. -/
def do_forward (fs : FS) (w : Walker) : PyRes :=
  let fw := forward_stack w
  visit_stack fs fw.2 fw.1

/-- The Gopher item tags the offline walker follows (its own list, without
`'i'`, `'2'`, `'7'`, `'8'`, `'+'`, `'3'`, `'T'`). -/
def offlineGopherItems : List Char := ['0', '1', '4', '5', '6', '9', 'g', 'I', 'h', 's']

/-- Link collection of the offline Gopher extractor: one pass over the raw
lines of a gophermap, `rstrip(' \r\n')`-ing each, keeping `item + url` for
recognized tags with a second non-empty tab field (a Python `set`,
modelled in first-insertion order). -/
def offline_gopher_links (lines : List String) : List String :=
  lines.foldl (fun acc rline =>
    let line := stripRight [' ', '\r', '\n'] rline
    match strHead line with
    | none => acc
    | some item =>
      if item ∉ offlineGopherItems then acc
      else
        match pySplit '\t' line with
        | _ :: url :: _ =>
          if strLen url > 0 then addSet acc (ofChars [item] ++ url) else acc
        | _ => acc) []

/-- Link collection of the offline Gemini extractor: keep the first
whitespace-delimited token after `=>` of each link line.  The raw lines
keep their trailing newline and the split is on space and tab only, as in
the source. -/
def offline_gemini_links (lines : List String) : List String :=
  lines.foldl (fun acc line =>
    if !startsW line "=>" then acc
    else
      let url := takeUntil [' ', '\t'] (stripLeft [' ', '\t'] (strDrop line 2))
      if strLen url > 0 then addSet acc url else acc) []

/-- The `for l in links` loop shared by the two offline extractors: feed
each collected link to the extractor, threading the visited set and
propagating a crash. -/
def run_links (step : List String → String → Option (List String)) :
    List String → List String → Option (List String)
  | fl, [] => some fl
  | fl, l :: ls =>
    match step fl l with
    | none => none
    | some fl2 => run_links step fl2 ls

/-- Directory redirection at the top of the Gopher `extract_links`: a
directory target is replaced by the `gophermap` inside it when that file
exists. -/
def gopher_target (fs : FS) (fileName : String) : String :=
  if fs.isDir fileName then
    let n2 := if endsW fileName "/" then fileName ++ "gophermap"
      else fileName ++ "/" ++ "gophermap"
    if fs.isFile n2 then n2 else fileName
  else fileName

/-- One layer of `extract_links` of `offline_walk.gopher_hole`, with the
recursive occurrence abstracted as `rec` (the function's first parameter
`item` is never read before being shadowed and is omitted).  `none` models
the uncaught `IsADirectoryError` of opening a directory whose name ends in
`gophermap`. -/
def extract_gopher_body
    (rec : FS → List String → String → String → String → Option (List String))
    (fs : FS) (files : List String) (base lcl name : String) : Option (List String) :=
  let fileName := gopher_target fs
    (if name ≠ "" ∧ strHead name = some '/' then base ++ name else lcl ++ "/" ++ name)
  if !fs.isFile fileName && !fs.isDir fileName then some files
  else
    let listFiles := if fs.isDir fileName then fs.listdir fileName else []
    if files.contains fileName then some files
    else
      let files := if listFiles ≠ [] then addSetAll files listFiles
        else addSet files fileName
      if !endsW fileName "gophermap" then some files
      else if fs.isDir fileName then none
      else
        run_links (fun fl l =>
          if startsW l "hURL:" then some fl
          else rec fs fl base (pyDirname fileName) (strDrop l 1))
          files (offline_gopher_links (fs.rawLines fileName))

/-- `extract_links` of `offline_walk.gopher_hole`.  `fuel` bounds the
recursion depth (`none` also covers fuel exhaustion); the theorems below
show any `fuel` above the number of unvisited files gives the same
result.  `files` is the global visited set. -/
def extract_links_gopher : Nat → FS → List String → String → String → String → Option (List String)
  | 0, _, _, _, _, _ => none
  | fuel + 1, fs, files, base, lcl, name =>
    extract_gopher_body
      (fun fs2 fl b2 l2 n2 => extract_links_gopher fuel fs2 fl b2 l2 n2)
      fs files base lcl name

/-- `gopher_hole(path)`: seed the recursive extraction at `/gophermap`
under the site base. -/
def gopher_hole (fuel : Nat) (fs : FS) (path : String) : Option (List String) :=
  let base := strDropRight path (strLen "/gophermap")
  extract_links_gopher fuel fs [] base base "/gophermap"

/-- One layer of `extract_links` of `offline_walk.gemini_capsule`, with
the recursive occurrence abstracted as `rec`: resolve the name against the
base or the local directory, skip missing and already-visited files, mark
the file visited, and follow the links of `.gmi` files. -/
def extract_gemini_body
    (rec : FS → List String → String → String → String → Option (List String))
    (fs : FS) (files : List String) (base lcl name : String) : Option (List String) :=
  let fileName := if name ≠ "" ∧ strHead name = some '/' then base ++ name
    else lcl ++ "/" ++ name
  if !fs.isFile fileName then some files
  else if files.contains fileName then some files
  else
    let files := addSet files fileName
    if !endsW fileName ".gmi" then some files
    else
      let links := offline_gemini_links (fs.rawLines fileName)
      run_links (fun fl l =>
        if isLowerColon l then some fl
        else rec fs fl base (pyDirname fileName) l)
        files links

/-- `extract_links` of `offline_walk.gemini_capsule`: like the Gopher
variant but purely file-based, following only `.gmi` files further.
`fuel` bounds the recursion depth (`none` = exhausted); the theorems below
show any `fuel` above the number of unvisited files gives the same
defined result. -/
def extract_links_gemini : Nat → FS → List String → String → String → String → Option (List String)
  | 0, _, _, _, _, _ => none
  | fuel + 1, fs, files, base, lcl, name =>
    extract_gemini_body
      (fun fs2 fl b2 l2 n2 => extract_links_gemini fuel fs2 fl b2 l2 n2)
      fs files base lcl name

/-- `gemini_capsule(path)`: seed the recursive extraction at `/index.gmi`
under the site base. -/
def gemini_capsule (fuel : Nat) (fs : FS) (path : String) : Option (List String) :=
  let base := strDropRight path (strLen "/index.gmi")
  extract_links_gemini fuel fs [] base base "/index.gmi"

/-- The regular files `os.walk(root)` enumerates in the model: every file
path strictly under the root directory. -/
def walk_files (fs : FS) (root : String) : List String :=
  (fs.files.map Prod.fst).filter (fun p => startsW p (root ++ "/"))

/-- The orphan report of `offline_walk` for one root: every file found on
disk whose full name was never added to the visited set. -/
def orphan_files (fs : FS) (root : String) (visited : List String) : List String :=
  (walk_files fs root).filter (fun p => !visited.contains p)

/-- A walker with an empty history (fields: processing, paths, site_urls,
base, links, stack, pStack). -/
def wEmptyHist : Walker := ⟨"", [], [], "/site", [], [], -1⟩

/-- A walker with a two-entry history and the cursor on the first entry
(fields: processing, paths, site_urls, base, links, stack, pStack). -/
def wTwoHist : Walker := ⟨"", [], [], "/s", ["0x"], ["/s/a.gmi", "/s/b.gmi"], 0⟩

/-- C5 exactly as stated by the specification sentence: the target is
stripped of its *leading* separators in the base-relative branch and used
as-is in the current-place-relative branch. -/
def resolve_local_claimed (fs : FS) (w : Walker) (target : String) : String :=
  if target = "" ∨ strHead target = some '/' then
    pyJoin w.base (stripLeft ['/'] target)
  else
    let cp := current_stack w
    pyJoin (if fs.isDir cp then cp else pyDirname cp) target

/-- C5 amended: in both branches the target is joined after being stripped
of leading *and trailing* separators (`rest.strip(os.sep)` strips both
ends). -/
def resolve_local_spec (fs : FS) (w : Walker) (target : String) : String :=
  if target = "" ∨ strHead target = some '/' then
    pyJoin w.base (stripBoth ['/'] target)
  else
    let cp := current_stack w
    pyJoin (if fs.isDir cp then cp else pyDirname cp) (stripBoth ['/'] target)

/-- An empty filesystem. -/
def fsEmpty : FS := ⟨[], []⟩

/-- A walker whose current place is the file `/site/sub/index.gmi`. -/
def wSub : Walker := ⟨"", [], [], "/site", [], ["/site/sub/index.gmi"], 0⟩

/-- `true` unless the run ended in a failed `assert`. -/
def notAssertFail : PyRes → Bool
  | .error (.assertFail, _) => false
  | _ => true

/-- The line predicate of claim C2 exactly as stated: first character is a
recognized item tag and the line has at least two tab-separated fields. -/
def isClaimedGopherLinkLine (line : String) : Bool :=
  match pySplit '\t' (stripRight ['\r', '\n'] line) with
  | [] => false
  | p0 :: rest =>
    match strHead p0 with
    | none => false
    | some item => decide (item ∈ gopherItems) && decide ((p0 :: rest).length ≥ 2)

/-- The amended line predicate: additionally the tag is not `'i'`
(informational lines match the claimed predicate because `'i'` is a member
of `gopherItems`, yet the parser diverts them before the link branch). -/
def isGopherLinkLine (line : String) : Bool :=
  match pySplit '\t' (stripRight ['\r', '\n'] line) with
  | [] => false
  | p0 :: rest =>
    match strHead p0 with
    | none => false
    | some item =>
      decide (item ≠ 'i') && decide (item ∈ gopherItems) && decide ((p0 :: rest).length ≥ 2)

/-- A one-line gophermap whose only line is informational (`'i'` tag, two
tab fields). -/
def fsInfoMap : FS := ⟨[("/s/gophermap", ["ihello\tworld"])], [("/s", ["gophermap"])]⟩

/-- A walker about to process `/s/gophermap` (fields: processing, paths,
site_urls, base, links, stack, pStack). -/
def wAtS : Walker := ⟨"", [], [], "/s", [], [], -1⟩

/-- Closed instance of `gopher_map_link_count`: a map with one text link,
one informational line and one malformed line yields exactly one link. -/
def fsMixedMap : FS :=
  ⟨[("/s/gophermap", ["0A file\t/a.txt", "ihello\tworld", "just text"])], [("/s", ["gophermap"])]⟩

/-- A site with its gophermap and a target `/site/x`, plus one bookmarked
remote URL and one alternative root. -/
def fsRebase : FS := ⟨[("/site/gophermap", []), ("/site/x", [])], [("/site", ["gophermap", "x"])]⟩

/-- A second disk state on which only the alternative root `/other` has
the target. -/
def fsRebase2 : FS := ⟨[("/other/x", [])], [("/other", ["x"])]⟩

/-- Walker state during a re-base: non-empty history, one bookmarked URL,
one bookmarked alternative path (fields: processing, paths, site_urls,
base, links, stack, pStack). -/
def wRebase : Walker := ⟨"gopher", ["/other"], ["gopher://example.com"], "/site", [], ["/site/gophermap"], 0⟩

/-- Re-base state whose matching URL prefix is the *second* bookmark and
whose first alternative root does not exist on disk, exercising the
in-turn searches. -/
def wRebase2 : Walker :=
  ⟨"gopher", ["/nomatch", "/other"], ["gemini://other.org", "gopher://example.com"], "/site", [], ["/site/gophermap"], 0⟩

/-- Pre-call state for the `do_visit` counterexample: an old site is
loaded, with one history entry and one stale link. -/
def wOldSite : Walker := ⟨"gopher", [], [], "/old", ["0stale"], ["/old/gophermap"], 0⟩

/-- Pre-call state for the `do_back` counterexample: two history entries,
cursor on the second, and the first place no longer on disk. -/
def wGoneBack : Walker := ⟨"gopher", [], [], "/old", [], ["/gone", "/old/gophermap"], 1⟩

/-- Crash-freedom of one gophermap line: the link branch is either not
taken or `gopher_real_link` returns normally (same case structure as
`gopher_step`). -/
def gopher_line_safe (line : String) : Bool :=
  match pySplit '\t' (stripRight ['\r', '\n'] line) with
  | [] => true
  | p0 :: rest =>
    match strHead p0 with
    | none => true
    | some item =>
      if item = 'i' ∧ (p0 :: rest).length > 1 then true
      else if (p0 :: rest).length > 1 ∧ item ∈ gopherItems then
        match gopher_real_link item (p0 :: rest) with
        | .error _ => false
        | .ok _ => true
      else true

/-- A history entry that re-renders as a page committing the entry itself:
not a URL, not a directory, and an existing file that is a Gemini page, a
crash-free gophermap, or a plain file with a guessable MIME type. -/
def selfRender (fs : FS) (p : String) : Prop :=
  isUrlPattern p = false ∧ fs.isDir p = false ∧ fs.isFile p = true ∧
    (endsW p ".gmi" = true ∨ endsW p ".gemini" = true ∨
      (endsW p "gophermap" = true ∧ ∀ l ∈ fs.lines p, gopher_line_safe l = true) ∨
      (endsW p "gophermap" = false ∧ (guessMime p).isSome = true))

instance selfRenderDecidable (fs : FS) (p : String) : Decidable (selfRender fs p) := by
  unfold selfRender
  infer_instance

/-- A Gemini capsule with an index and two pages, for the C4 scenarios. -/
def fsC4 : FS :=
  ⟨[("/site/index.gmi", []), ("/site/a.gmi", []), ("/site/b.gmi", [])],
   [("/site", ["index.gmi", "a.gmi", "b.gmi"])]⟩

/-- Two-entry history with the cursor on the *first* entry (fields:
processing, paths, site_urls, base, links, stack, pStack). -/
def wC4Bottom : Walker := ⟨"gemini", [], [], "/site", [], ["/site/a.gmi", "/site/b.gmi"], 0⟩

/-- The state `do_back` leaves from `wC4Bottom`: the forward entry is lost
and the committed index page replaces it. -/
def wC4Mid : Walker := ⟨"gemini", [], [], "/site", [], ["/site/a.gmi", "/site/index.gmi"], 1⟩

/-- Two-entry history with the cursor on the *second* entry. -/
def wC4Top : Walker := ⟨"gemini", [], [], "/site", [], ["/site/a.gmi", "/site/b.gmi"], 1⟩

/-- A Gopher hole whose map links to a subdirectory `sub` that has no
gophermap of its own and holds one regular file. -/
def fsOrphan : FS :=
  ⟨[("/site/gophermap", ["1Sub dir\t/sub"]), ("/site/sub/a.txt", ["hello"])],
   [("/site", ["gophermap", "sub"]), ("/site/sub", ["a.txt"])]⟩

/-- A two-file cyclic Gemini capsule: the index links to `b.gmi`, which
links back to the index. -/
def fsCycle : FS :=
  ⟨[("/site/index.gmi", ["=> /b.gmi Page B"]), ("/site/b.gmi", ["=> /index.gmi Back home"])],
   [("/site", ["index.gmi", "b.gmi"])]⟩

/-- Number of files of the filesystem not yet in the visited set: the
termination measure of the offline extractors. -/
def unvisitedG (fs : FS) (files : List String) : Nat :=
  (fs.files.map Prod.fst).countP (fun p => !files.contains p)

/-! ### Helper lemmas about the Python-primitive models -/

theorem pyIdx_of_nonneg (l : List String) (i : Int) (h1 : 0 ≤ i)
    (h2 : i.toNat < l.length) : pyIdx l i = some (idxGet l i) := by
  unfold pyIdx idxGet
  have hnot : ¬ i < 0 := by omega
  simp only [hnot, if_false]
  rw [dif_pos ⟨h1, h2⟩, dif_pos ⟨h1, h2⟩]

theorem pySliceTo_of_inrange (l : List String) (j : Int) (h1 : 0 ≤ j)
    (h2 : j ≤ (l.length : Int)) : pySliceTo l j = l.take j.toNat := by
  unfold pySliceTo
  have hnot : ¬ j < 0 := by omega
  simp only [hnot, if_false]
  congr 1
  omega

theorem stack_ne_nil_of_cursor (w : Walker) (h1 : 0 ≤ w.pStack)
    (h2 : w.pStack < (w.stack.length : Int)) : w.stack ≠ [] := by
  intro hnil
  rw [hnil] at h2
  simp at h2
  omega

/-! ### C10 — back/forward/current on an empty history -/

/-- C10: with an empty history stack (cursor at `-1`), `back_stack`,
`forward_stack` and `current_stack` all return the site base and leave the
cursor where it was, so back and forward re-dispatch on the current site
base instead of indexing out of range. -/
theorem empty_history_returns_base (w : Walker) (h1 : w.stack = [])
    (h2 : w.pStack = -1) :
    back_stack w = (w.base, w) ∧ forward_stack w = (w.base, w) ∧
      current_stack w = w.base := by
  unfold back_stack forward_stack current_stack
  rw [h1, h2]
  norm_num

/-- Closed instance of `empty_history_returns_base`. -/
theorem empty_history_returns_base_witness :
    back_stack wEmptyHist = ("/site", wEmptyHist) ∧
    forward_stack wEmptyHist = ("/site", wEmptyHist) ∧
    current_stack wEmptyHist = "/site" :=
  empty_history_returns_base _ rfl rfl

/-! ### C3 — the commit step: idempotent re-commit, truncate-and-push otherwise -/

/-- C3: committing the place the cursor currently points at leaves the
history (stack and cursor) untouched and only clears the link table;
committing a different place truncates the forward entries beyond the
cursor, appends the new place and advances the cursor by one. -/
theorem update_stack_commit (w : Walker) (place : String)
    (h1 : 0 ≤ w.pStack) (h2 : w.pStack < (w.stack.length : Int)) :
    (idxGet w.stack w.pStack = place →
      update_stack w place = .ok { w with links := [] }) ∧
    (idxGet w.stack w.pStack ≠ place →
      update_stack w place = .ok { w with links := [], stack := w.stack.take (w.pStack.toNat + 1) ++ [place], pStack := w.pStack + 1 }) := by
  have hne : w.stack ≠ [] := stack_ne_nil_of_cursor w h1 h2
  have htn : w.pStack.toNat < w.stack.length := by omega
  constructor
  · intro heq
    unfold update_stack
    simp only [hne, ne_eq, not_false_iff, if_true]
    rw [pyIdx_of_nonneg _ _ h1 htn]
    dsimp only
    rw [if_pos heq]
  · intro hneq
    unfold update_stack
    simp only [hne, ne_eq, not_false_iff, if_true]
    rw [pyIdx_of_nonneg _ _ h1 htn]
    dsimp only
    rw [if_neg hneq]
    by_cases hend : w.pStack = (w.stack.length : Int) - 1
    · rw [if_neg (not_not_intro hend)]
      have htk : w.stack.take (w.pStack.toNat + 1) = w.stack := by
        apply List.take_of_length_le
        omega
      rw [htk]
    · rw [if_pos hend]
      rw [pySliceTo_of_inrange _ _ (by omega) (by omega)]
      have htn1 : (w.pStack + 1).toNat = w.pStack.toNat + 1 := by omega
      rw [htn1]

/-! ### C5 — local link resolution -/

/-- C5 counterexample: for the target `"/foo/"` the code also strips the
*trailing* separator before joining, so the resolved path is `/site/foo`,
not the `/site/foo/` the specification's wording produces. -/
theorem resolve_local_strips_trailing_sep :
    resolve_local fsEmpty wEmptyHist "/foo/" = "/site/foo" ∧
    resolve_local_claimed fsEmpty wEmptyHist "/foo/" = "/site/foo/" ∧
    ¬ (resolve_local fsEmpty wEmptyHist "/foo/" = resolve_local_claimed fsEmpty wEmptyHist "/foo/") := by
  refine ⟨by decide, by decide, by decide⟩

/-- C5 amended and proved: the resolver agrees everywhere with the
spec-worded definition once the target is stripped of leading and trailing
separators, and the two worked examples of the specification hold. -/
theorem resolve_local_correct :
    (∀ (fs : FS) (w : Walker) (target : String),
      resolve_local fs w target = resolve_local_spec fs w target) ∧
    resolve_local fsEmpty wEmptyHist "/foo/bar" = "/site/foo/bar" ∧
    resolve_local fsEmpty wSub "baz.gmi" = "/site/sub/baz.gmi" := by
  refine ⟨fun fs w target => ?_, by decide, by decide⟩
  unfold resolve_local resolve_local_spec base_link
  by_cases h : target = "" ∨ strHead target = some '/'
  · rw [if_pos h, if_pos h]
  · rw [if_neg h, if_neg h]

/-! ### C9 — the parser never trips `gopher_real_link`'s assertion -/

theorem gopher_real_link_rest_no_assert (selector host port : String) (e : PyErr)
    (he : gopher_real_link_rest selector host port = .error e) : e = .indexError := by
  unfold gopher_real_link_rest at he
  split at he
  · cases he
    rfl
  · split at he
    · exact Except.noConfusion he
    · split at he <;> exact Except.noConfusion he

theorem gopher_real_link_no_assert (item : Char) (parts : List String)
    (h : parts.length > 1) (e : PyErr)
    (he : gopher_real_link item parts = .error e) : e = .indexError := by
  unfold gopher_real_link at he
  rw [dif_neg (by omega)] at he
  unfold gopher_real_link_sel at he
  split at he
  · split at he
    · exact Except.noConfusion he
    · exact gopher_real_link_rest_no_assert _ _ _ e he
  · exact gopher_real_link_rest_no_assert _ _ _ e he

theorem gopher_step_no_assert (w : Walker) (line : String) :
    notAssertFail (gopher_step w line) = true := by
  unfold gopher_step
  split
  · rfl
  · split
    · rfl
    · split
      · rfl
      · split
        · rename_i hcond
          split
          · rename_i e herr
            have he : e = .indexError :=
              gopher_real_link_no_assert _ _ hcond.1 e herr
            subst he
            rfl
          · rfl
        · rfl

theorem gopher_run_no_assert (lines : List String) (w : Walker) :
    notAssertFail (gopher_run w lines) = true := by
  induction lines generalizing w with
  | nil => rfl
  | cons l ls ih =>
    unfold gopher_run
    cases h : gopher_step w l with
    | error e =>
      have h2 := gopher_step_no_assert w l
      rw [h] at h2
      exact h2
    | ok w1 => exact ih w1

theorem update_stack_no_assert (w : Walker) (place : String) :
    notAssertFail (update_stack w place) = true := by
  unfold update_stack
  dsimp only
  split
  · split
    · rfl
    · split <;> rfl
  · rfl

/-- C9: no run of the Gopher-map parser ever fails the
`assert numParts > 1` inside `gopher_real_link`: the parser only calls it
on lines with at least two tab-separated fields (and the selector access
`parts[1]` is in bounds by the same token, as the total Lean translation
shows). -/
theorem gopher_map_never_assert_fails (fs : FS) (w : Walker) (name : String) :
    notAssertFail (process_gopher_map fs w name) = true := by
  unfold process_gopher_map
  split
  · rfl
  · dsimp only
    cases h : update_stack { w with processing := "gopher" } name with
    | error e =>
      have h2 := update_stack_no_assert { w with processing := "gopher" } name
      rw [h] at h2
      exact h2
    | ok w1 =>
      exact gopher_run_no_assert _ w1

/-! ### C2 — number of links produced by the Gopher-map parser -/

theorem gopher_step_links_count (w : Walker) (line : String) (w' : Walker)
    (h : gopher_step w line = .ok w') :
    w'.links.length = w.links.length + (if isGopherLinkLine line then 1 else 0) := by
  unfold gopher_step at h
  unfold isGopherLinkLine
  cases hsp : pySplit '\t' (stripRight ['\r', '\n'] line) with
  | nil =>
    rw [hsp] at h
    cases h
    simp
  | cons p0 rest =>
    rw [hsp] at h
    dsimp only at h ⊢
    cases hh : strHead p0 with
    | none =>
      rw [hh] at h
      dsimp only at h
      cases h
      simp
    | some item =>
      rw [hh] at h
      dsimp only at h
      by_cases hi : item = 'i' ∧ (p0 :: rest).length > 1
      · rw [if_pos hi] at h
        cases h
        have hni' : ¬ (item ≠ 'i') := by simp [hi.1]
        simp [hni']
      · rw [if_neg hi] at h
        by_cases hc : (p0 :: rest).length > 1 ∧ item ∈ gopherItems
        · rw [if_pos hc] at h
          cases hg : gopher_real_link item (p0 :: rest) with
          | error e =>
            rw [hg] at h
            exact Except.noConfusion h
          | ok s =>
            rw [hg] at h
            cases h
            have h1 : item ≠ 'i' := fun hii => hi ⟨hii, hc.1⟩
            have h3 : 1 ≤ rest.length := by
              have := hc.1
              simp only [List.length_cons] at this
              omega
            simp [h1, hc.2, h3]
        · rw [if_neg hc] at h
          cases h
          have hp : (decide (item ≠ 'i') && decide (item ∈ gopherItems) &&
              decide ((p0 :: rest).length ≥ 2)) = false := by
            rcases Decidable.em (item ∈ gopherItems) with hm | hm
            · have hlen : ¬ ((p0 :: rest).length ≥ 2) := fun hl => hc ⟨by omega, hm⟩
              rw [decide_eq_false hlen]
              simp
            · rw [decide_eq_false hm]
              simp
          dsimp only
          rw [hp]
          simp

theorem gopher_run_links_count (lines : List String) (w w' : Walker)
    (h : gopher_run w lines = .ok w') :
    w'.links.length = w.links.length + lines.countP isGopherLinkLine := by
  induction lines generalizing w with
  | nil =>
    unfold gopher_run at h
    cases h
    simp
  | cons l ls ih =>
    unfold gopher_run at h
    cases hs : gopher_step w l with
    | error e =>
      rw [hs] at h
      exact Except.noConfusion h
    | ok w1 =>
      rw [hs] at h
      have h1 := gopher_step_links_count w l w1 hs
      have h2 := ih w1 h
      rw [h2, h1, List.countP_cons]
      ring

theorem update_stack_ok_links (w : Walker) (place : String) (w' : Walker)
    (h : update_stack w place = .ok w') : w'.links = [] := by
  unfold update_stack at h
  dsimp only at h
  split at h
  · split at h
    · exact Except.noConfusion h
    · split at h
      · cases h
        rfl
      · cases h
        rfl
  · cases h
    rfl

/-- C2 amended and proved: whenever the Gopher-map parser completes
normally on an existing file, the number of Link entries it leaves in the
table equals the number of lines whose first character is a recognized
item tag *other than `'i'`* and which have at least two tab-separated
fields. -/
theorem gopher_map_link_count (fs : FS) (w : Walker) (name : String) (w' : Walker)
    (hf : fs.isFile name = true)
    (h : process_gopher_map fs w name = .ok w') :
    w'.links.length = (fs.lines name).countP isGopherLinkLine := by
  unfold process_gopher_map at h
  rw [hf] at h
  simp only [Bool.not_true, Bool.false_eq_true, if_false] at h
  cases hu : update_stack { w with processing := "gopher" } name with
  | error e =>
    rw [hu] at h
    exact Except.noConfusion h
  | ok w1 =>
    rw [hu] at h
    have h1 := update_stack_ok_links _ _ _ hu
    have h2 := gopher_run_links_count _ _ _ h
    rw [h2, h1]
    simp

/-- C2 counterexample: an `i`-tagged line with two tab fields has a
recognized first character (`'i'` is in `gopherItems`) and at least two
fields, yet the parser renders it as informational text and produces no
link: 0 links versus a claimed count of 1. -/
theorem gopher_map_link_count_claim_fails :
    (resOk (process_gopher_map fsInfoMap wAtS "/s/gophermap")).map Walker.links = some [] ∧
    (fsInfoMap.lines "/s/gophermap").countP isClaimedGopherLinkLine = 1 ∧
    (fsInfoMap.lines "/s/gophermap").countP isGopherLinkLine = 0 := by
  refine ⟨by decide, by decide, by decide⟩

theorem gopher_map_link_count_witness :
    ∃ w', process_gopher_map fsMixedMap wAtS "/s/gophermap" = .ok w' ∧
      w'.links.length = (fsMixedMap.lines "/s/gophermap").countP isGopherLinkLine := by
  have hok : resOk (process_gopher_map fsMixedMap wAtS "/s/gophermap") ≠ none := by decide
  cases hr : process_gopher_map fsMixedMap wAtS "/s/gophermap" with
  | error e =>
    rw [hr] at hok
    exact absurd rfl hok
  | ok w' => exact ⟨w', rfl, gopher_map_link_count fsMixedMap wAtS "/s/gophermap" w' (by decide) hr⟩

/-! ### C8 — re-basing a remote link onto local roots -/

/-- C8 counterexample: when substituting the URL prefix with the *current
base* yields an existing path, the code returns it with the walker — and
in particular the history stack — completely untouched; the claimed
"navigation history is reset" does not happen (the reset lives in the
fallback branch instead). -/
theorem rebase_base_hit_keeps_history :
    rebase_link fsRebase wRebase "gopher://example.com/x" = (wRebase, "/site/x") ∧
    wRebase.stack = ["/site/gophermap"] ∧
    ¬ ((rebase_link fsRebase wRebase "gopher://example.com/x").1.stack = []) := by
  refine ⟨by decide, by decide, by decide⟩

theorem rebase_paths_cons (fs : FS) (w : Walker) (link u p : String) (rest : List String) :
    rebase_paths fs w link u (p :: rest) =
      (if fs.pathExists (pyReplaceFirst link u p) then
        some ({ clear_stack w with base := p }, pyReplaceFirst link u p)
      else rebase_paths fs w link u rest) := rfl

theorem rebase_go_cons (fs : FS) (w : Walker) (link v : String) (rest : List String) :
    rebase_go fs w link (v :: rest) =
      (if startsW link v then
        (if fs.pathExists (pyReplaceFirst link v w.base) then (w, pyReplaceFirst link v w.base)
          else
            match rebase_paths fs w link v w.paths with
            | some r => r
            | none => rebase_go fs w link rest)
      else rebase_go fs w link rest) := rfl

theorem rebase_paths_skip (fs : FS) (w : Walker) (link u : String)
    (ps1 rest : List String)
    (hfail : ∀ q ∈ ps1, fs.pathExists (pyReplaceFirst link u q) = false) :
    rebase_paths fs w link u (ps1 ++ rest) = rebase_paths fs w link u rest := by
  induction ps1 with
  | nil => rfl
  | cons q qs ih =>
    rw [List.cons_append, rebase_paths_cons,
      if_neg (by rw [hfail q (by simp)]; exact Bool.false_ne_true)]
    exact ih (fun x hx => hfail x (by simp [hx]))

theorem rebase_go_skip (fs : FS) (w : Walker) (link : String)
    (us1 rest : List String)
    (hprev : ∀ v ∈ us1, startsW link v = false) :
    rebase_go fs w link (us1 ++ rest) = rebase_go fs w link rest := by
  induction us1 with
  | nil => rfl
  | cons v vs ih =>
    rw [List.cons_append, rebase_go_cons,
      if_neg (by rw [hprev v (by simp)]; exact Bool.false_ne_true)]
    exact ih (fun x hx => hprev x (by simp [hx]))

/-- C8 amended and proved: take the first bookmarked URL prefix the link
starts with (every earlier bookmark is not a prefix of the link).  (1) If
the prefix substituted with `ctx.base` exists on disk, that path is
returned and the context — history included — is left untouched.  (2) If
that fails, the bookmarked site roots are substituted in turn and the
first whose substitution exists on disk wins: that path is returned,
`ctx.base` becomes that root, and the navigation history is reset. -/
theorem rebase_link_effect (fs : FS) (w : Walker) (link u : String) (us1 us2 : List String)
    (hu : w.site_urls = us1 ++ u :: us2)
    (hprev : ∀ v ∈ us1, startsW link v = false)
    (hs : startsW link u = true) :
    (fs.pathExists (pyReplaceFirst link u w.base) = true →
      rebase_link fs w link = (w, pyReplaceFirst link u w.base)) ∧
    (∀ ps1 p ps2, fs.pathExists (pyReplaceFirst link u w.base) = false →
      w.paths = ps1 ++ p :: ps2 →
      (∀ q ∈ ps1, fs.pathExists (pyReplaceFirst link u q) = false) →
      fs.pathExists (pyReplaceFirst link u p) = true →
      rebase_link fs w link = ({ clear_stack w with base := p }, pyReplaceFirst link u p)) := by
  unfold rebase_link
  rw [hu, rebase_go_skip fs w link us1 (u :: us2) hprev, rebase_go_cons, if_pos hs]
  constructor
  · intro hex
    rw [if_pos hex]
  · intro ps1 p ps2 hnex hp hfail hexp
    rw [if_neg (by rw [hnex]; exact Bool.false_ne_true), hp,
      rebase_paths_skip fs w link u ps1 (p :: ps2) hfail, rebase_paths_cons, if_pos hexp]

/-- Closed instance of `rebase_link_effect` with the matching URL prefix
in second position: the base-substitution hit leaves the walker untouched;
with the base substitution missing and the first root missing too, the
second root wins, the base switches to it and the history is cleared. -/
theorem rebase_link_effect_witness :
    rebase_link fsRebase wRebase2 "gopher://example.com/x" =
      (wRebase2, pyReplaceFirst "gopher://example.com/x" "gopher://example.com" wRebase2.base) ∧
    rebase_link fsRebase2 wRebase2 "gopher://example.com/x" =
      ({ clear_stack wRebase2 with base := "/other" }, pyReplaceFirst "gopher://example.com/x" "gopher://example.com" "/other") :=
  ⟨(rebase_link_effect fsRebase wRebase2 "gopher://example.com/x" "gopher://example.com"
      ["gemini://other.org"] [] rfl (by decide) (by decide)).1 (by decide),
   (rebase_link_effect fsRebase2 wRebase2 "gopher://example.com/x" "gopher://example.com"
      ["gemini://other.org"] [] rfl (by decide) (by decide)).2
      ["/nomatch"] "/other" [] (by decide) rfl (by decide) (by decide)⟩

/-! ### C1 — which error paths really leave the context untouched -/

/-- C1 amended and proved: the error paths that go through `visit`
(invalid directory), the two parsers (missing file), `visit_link`
(out-of-range index), `visit_file` (missing file or unguessable MIME) and
`visit_stack` (unknown place) return with the context exactly as it was.
The exceptions — established by the counterexample — are `do_visit`, which
clears base/history *before* validating, and `do_back`/`do_forward`, which
move the cursor before re-dispatching. -/
theorem error_paths_preserve_context :
    (∀ (fs : FS) (w : Walker) (place : String), fs.isDir place = false →
      visit fs w place = .ok w) ∧
    (∀ (fs : FS) (w : Walker) (name : String), fs.isFile name = false →
      process_gopher_map fs w name = .ok w) ∧
    (∀ (fs : FS) (w : Walker) (name : String), fs.isFile name = false →
      process_gemini_map fs w name = .ok w) ∧
    (∀ (fs : FS) (w : Walker) (id : Nat), w.links.length ≤ id →
      visit_link fs w id = .ok w) ∧
    (∀ (fs : FS) (w : Walker) (name : String), fs.isFile name = true →
      guessMime name = none → visit_file fs w name = .ok w) ∧
    (∀ (fs : FS) (w : Walker) (place : String), isUrlPattern place = false →
      fs.isDir place = false → fs.isFile place = false →
      visit_stack fs w place = .ok w) := by
  refine ⟨?_, ?_, ?_, ?_, ?_, ?_⟩
  · intro fs w place h
    simp [visit, h]
  · intro fs w name h
    simp [process_gopher_map, h]
  · intro fs w name h
    simp [process_gemini_map, h]
  · intro fs w id h
    have hg : w.links[id]? = none := List.getElem?_eq_none h
    simp [visit_link, visit_link_body, hg]
  · intro fs w name hf hm
    simp [visit_file, hf, hm]
  · intro fs w place h1 h2 h3
    simp [visit_stack, h1, h2, h3]

/-- Closed instance of `error_paths_preserve_context`. -/
theorem error_paths_preserve_context_witness :
    visit fsEmpty wEmptyHist "/nowhere" = .ok wEmptyHist ∧
    process_gopher_map fsEmpty wEmptyHist "/a/gophermap" = .ok wEmptyHist ∧
    process_gemini_map fsEmpty wEmptyHist "/a/index.gmi" = .ok wEmptyHist ∧
    visit_link fsEmpty wEmptyHist 0 = .ok wEmptyHist ∧
    visit_file fsInfoMap wEmptyHist "/s/gophermap" = .ok wEmptyHist ∧
    visit_stack fsEmpty wEmptyHist "/ghost" = .ok wEmptyHist :=
  ⟨error_paths_preserve_context.1 fsEmpty wEmptyHist "/nowhere" (by decide),
   error_paths_preserve_context.2.1 fsEmpty wEmptyHist "/a/gophermap" (by decide),
   error_paths_preserve_context.2.2.1 fsEmpty wEmptyHist "/a/index.gmi" (by decide),
   error_paths_preserve_context.2.2.2.1 fsEmpty wEmptyHist 0 (by decide),
   error_paths_preserve_context.2.2.2.2.1 fsInfoMap wEmptyHist "/s/gophermap" (by decide) (by decide),
   error_paths_preserve_context.2.2.2.2.2 fsEmpty wEmptyHist "/ghost" (by decide) (by decide) (by decide)⟩

/-- C1 counterexample: two navigation operations whose local error does
*not* leave the context as it was.  `do_visit` on a non-existent directory
reports the error but has already replaced `base` and cleared the history;
`do_back` onto a place that is no longer on disk reports "Unknown place"
but has already moved the cursor back. -/
theorem visit_and_back_errors_mutate_context :
    resOk (do_visit fsEmpty wOldSite "/nope") = some ⟨"gopher", [], [], "/nope", ["0stale"], [], -1⟩ ∧
    ¬ (resOk (do_visit fsEmpty wOldSite "/nope") = some wOldSite) ∧
    resOk (do_back fsEmpty wGoneBack) = some ⟨"gopher", [], [], "/old", [], ["/gone", "/old/gophermap"], 0⟩ ∧
    ¬ (resOk (do_back fsEmpty wGoneBack) = some wGoneBack) := by
  refine ⟨by decide, by decide, by decide, by decide⟩

/-- Closed instance of `update_stack_commit`: re-committing the pointed-at
place keeps the two-entry history as is, committing a fresh place from the
middle truncates and appends. -/
theorem update_stack_commit_witness :
    update_stack wTwoHist "/s/a.gmi" =
      .ok ⟨"", [], [], "/s", [], ["/s/a.gmi", "/s/b.gmi"], 0⟩ ∧
    update_stack wTwoHist "/s/c.gmi" =
      .ok ⟨"", [], [], "/s", [], ["/s/a.gmi", "/s/c.gmi"], 1⟩ := by
  constructor
  · exact (update_stack_commit wTwoHist "/s/a.gmi" (by decide) (by decide)).1 (by decide)
  · exact (update_stack_commit wTwoHist "/s/c.gmi" (by decide) (by decide)).2 (by decide)

/-! ### C4 — back then forward returns to the pre-back place -/

theorem update_stack_same (w : Walker) (place : String)
    (h1 : 0 ≤ w.pStack) (h2 : w.pStack < (w.stack.length : Int))
    (hp : idxGet w.stack w.pStack = place) :
    update_stack w place = .ok { w with links := [] } := by
  have hne : w.stack ≠ [] := stack_ne_nil_of_cursor w h1 h2
  have htn : w.pStack.toNat < w.stack.length := by omega
  unfold update_stack
  simp only [hne, ne_eq, not_false_iff, if_true]
  rw [pyIdx_of_nonneg _ _ h1 htn]
  dsimp only
  rw [if_pos hp]

theorem gopher_step_safe_frame (w : Walker) (line : String)
    (hsafe : gopher_line_safe line = true) :
    ∃ w', gopher_step w line = .ok w' ∧ w'.stack = w.stack ∧
      w'.pStack = w.pStack ∧ w'.base = w.base := by
  unfold gopher_step
  unfold gopher_line_safe at hsafe
  cases hsp : pySplit '\t' (stripRight ['\r', '\n'] line) with
  | nil => exact ⟨w, rfl, rfl, rfl, rfl⟩
  | cons p0 rest =>
    rw [hsp] at hsafe
    dsimp only at hsafe ⊢
    cases hh : strHead p0 with
    | none => exact ⟨w, rfl, rfl, rfl, rfl⟩
    | some item =>
      rw [hh] at hsafe
      dsimp only at hsafe ⊢
      by_cases hi : item = 'i' ∧ (p0 :: rest).length > 1
      · rw [if_pos hi]
        exact ⟨w, rfl, rfl, rfl, rfl⟩
      · rw [if_neg hi] at hsafe ⊢
        by_cases hc : (p0 :: rest).length > 1 ∧ item ∈ gopherItems
        · rw [if_pos hc] at hsafe ⊢
          cases hg : gopher_real_link item (p0 :: rest) with
          | error e =>
            rw [hg] at hsafe
            exact absurd hsafe (by simp)
          | ok s =>
            exact ⟨_, rfl, rfl, rfl, rfl⟩
        · rw [if_neg hc]
          exact ⟨w, rfl, rfl, rfl, rfl⟩

theorem gopher_run_safe_frame (lines : List String) (w : Walker)
    (hsafe : ∀ l ∈ lines, gopher_line_safe l = true) :
    ∃ w', gopher_run w lines = .ok w' ∧ w'.stack = w.stack ∧
      w'.pStack = w.pStack ∧ w'.base = w.base := by
  induction lines generalizing w with
  | nil => exact ⟨w, rfl, rfl, rfl, rfl⟩
  | cons l ls ih =>
    obtain ⟨w1, hw1, hs1, hp1, hb1⟩ := gopher_step_safe_frame w l (hsafe l (by simp))
    obtain ⟨w2, hw2, hs2, hp2, hb2⟩ := ih w1 (fun x hx => hsafe x (by simp [hx]))
    refine ⟨w2, ?_, by rw [hs2, hs1], by rw [hp2, hp1], by rw [hb2, hb1]⟩
    unfold gopher_run
    rw [hw1]
    exact hw2

theorem process_gemini_recommit (fs : FS) (w : Walker) (p : String)
    (hf : fs.isFile p = true) (h1 : 0 ≤ w.pStack) (h2 : w.pStack < (w.stack.length : Int))
    (hp : idxGet w.stack w.pStack = p) :
    ∃ w', process_gemini_map fs w p = .ok w' ∧ w'.stack = w.stack ∧
      w'.pStack = w.pStack ∧ w'.base = w.base := by
  unfold process_gemini_map
  rw [hf]
  simp only [Bool.not_true, Bool.false_eq_true, if_false]
  rw [update_stack_same { w with processing := "gemini" } p h1 h2 hp]
  exact ⟨_, rfl, rfl, rfl, rfl⟩

theorem process_gopher_recommit (fs : FS) (w : Walker) (p : String)
    (hf : fs.isFile p = true)
    (hsafe : ∀ l ∈ fs.lines p, gopher_line_safe l = true)
    (h1 : 0 ≤ w.pStack) (h2 : w.pStack < (w.stack.length : Int))
    (hp : idxGet w.stack w.pStack = p) :
    ∃ w', process_gopher_map fs w p = .ok w' ∧ w'.stack = w.stack ∧
      w'.pStack = w.pStack ∧ w'.base = w.base := by
  unfold process_gopher_map
  rw [hf]
  simp only [Bool.not_true, Bool.false_eq_true, if_false]
  rw [update_stack_same { w with processing := "gopher" } p h1 h2 hp]
  obtain ⟨w2, hw2, hs2, hp2, hb2⟩ :=
    gopher_run_safe_frame (fs.lines p) { w with processing := "gopher", links := [] } hsafe
  exact ⟨w2, hw2, by rw [hs2], by rw [hp2], by rw [hb2]⟩

theorem visit_file_recommit (fs : FS) (w : Walker) (p : String)
    (hf : fs.isFile p = true) (hm : (guessMime p).isSome = true)
    (h1 : 0 ≤ w.pStack) (h2 : w.pStack < (w.stack.length : Int))
    (hp : idxGet w.stack w.pStack = p) :
    ∃ w', visit_file fs w p = .ok w' ∧ w'.stack = w.stack ∧
      w'.pStack = w.pStack ∧ w'.base = w.base := by
  unfold visit_file
  rw [hf]
  simp only [Bool.not_true, Bool.false_eq_true, if_false]
  cases hgm : guessMime p with
  | none =>
    rw [hgm] at hm
    exact absurd hm (by simp)
  | some m =>
    dsimp only
    by_cases ht : mimeMajor m = "text"
    · rw [if_pos ht]
      unfold process_text_file
      rw [hf]
      simp only [Bool.not_true, Bool.false_eq_true, if_false]
      rw [update_stack_same w p h1 h2 hp]
      exact ⟨_, rfl, rfl, rfl, rfl⟩
    · rw [if_neg ht]
      unfold process_external_app
      rw [update_stack_same w p h1 h2 hp]
      exact ⟨_, rfl, rfl, rfl, rfl⟩

theorem visit_stack_recommit (fs : FS) (w : Walker) (p : String)
    (hsr : selfRender fs p) (h1 : 0 ≤ w.pStack) (h2 : w.pStack < (w.stack.length : Int))
    (hp : idxGet w.stack w.pStack = p) :
    ∃ w', visit_stack fs w p = .ok w' ∧ w'.stack = w.stack ∧
      w'.pStack = w.pStack ∧ w'.base = w.base := by
  obtain ⟨hu, hd, hf, hcase⟩ := hsr
  unfold visit_stack
  rw [if_neg (by simp [hu]), if_neg (by simp [hd]), if_pos hf]
  by_cases hgem : (endsW p ".gmi" || endsW p ".gemini") = true
  · rw [if_pos hgem]
    exact process_gemini_recommit fs w p hf h1 h2 hp
  · rw [if_neg hgem]
    by_cases hmap : endsW p "gophermap" = true
    · rw [if_pos hmap]
      have hsafe : ∀ l ∈ fs.lines p, gopher_line_safe l = true := by
        rcases hcase with h | h | h | h
        · exact absurd (by simp [h]) hgem
        · exact absurd (by simp [h]) hgem
        · exact h.2
        · rw [h.1] at hmap
          exact absurd hmap (by simp)
      exact process_gopher_recommit fs w p hf hsafe h1 h2 hp
    · rw [if_neg hmap]
      have hmime : (guessMime p).isSome = true := by
        rcases hcase with h | h | h | h
        · exact absurd (by simp [h]) hgem
        · exact absurd (by simp [h]) hgem
        · exact absurd h.1 hmap
        · exact h.2
      exact visit_file_recommit fs w p hf hmime h1 h2 hp

theorem back_stack_eq (w : Walker) (h1 : 0 ≤ w.pStack - 1)
    (h2 : w.pStack - 1 < (w.stack.length : Int)) :
    back_stack w = (idxGet w.stack (w.pStack - 1), { w with pStack := w.pStack - 1 }) := by
  unfold back_stack
  rw [if_pos ⟨h1, h2⟩]

theorem forward_stack_eq (w : Walker) (h1 : 0 ≤ w.pStack + 1)
    (h2 : w.pStack + 1 < (w.stack.length : Int)) :
    forward_stack w = (idxGet w.stack (w.pStack + 1), { w with pStack := w.pStack + 1 }) := by
  unfold forward_stack
  rw [if_pos ⟨h1, h2⟩]

theorem current_stack_eq (w : Walker) (h1 : 0 ≤ w.pStack)
    (h2 : w.pStack < (w.stack.length : Int)) :
    current_stack w = idxGet w.stack w.pStack := by
  unfold current_stack
  rw [if_pos ⟨h1, h2⟩]

/-- C4 amended and proved: for a history with at least two entries whose
cursor is *not on the first entry*, and whose two places involved
re-render as pages committing themselves (`selfRender`), `do_back`
followed by `do_forward` succeeds, ends on the place that was current
before the `back`, and leaves stack, cursor and base exactly as they
were — the idempotent commit records no new history entry. -/
theorem back_forward_round_trip (fs : FS) (w : Walker)
    (h1 : 1 ≤ w.pStack) (h2 : w.pStack < (w.stack.length : Int))
    (hb : selfRender fs (idxGet w.stack (w.pStack - 1)))
    (hf : selfRender fs (idxGet w.stack w.pStack)) :
    ∃ w1 w2, do_back fs w = .ok w1 ∧ do_forward fs w1 = .ok w2 ∧
      current_stack w2 = current_stack w ∧ w2.stack = w.stack ∧
      w2.pStack = w.pStack ∧ w2.base = w.base := by
  obtain ⟨w1, hw1, hs1, hp1, hbase1⟩ :=
    visit_stack_recommit fs { w with pStack := w.pStack - 1 } (idxGet w.stack (w.pStack - 1))
      hb (by show 0 ≤ w.pStack - 1; omega)
      (by show w.pStack - 1 < (w.stack.length : Int); omega) rfl
  have hs1' : w1.stack = w.stack := hs1
  have hp1' : w1.pStack = w.pStack - 1 := hp1
  have hbase1' : w1.base = w.base := hbase1
  have hdb : do_back fs w = .ok w1 := by
    unfold do_back
    rw [back_stack_eq w (by omega) (by omega)]
    exact hw1
  have hidx : idxGet w1.stack (w1.pStack + 1) = idxGet w.stack w.pStack := by
    rw [hs1', hp1']
    congr 1
    omega
  obtain ⟨w2, hw2, hs2, hp2, hbase2⟩ :=
    visit_stack_recommit fs { w1 with pStack := w1.pStack + 1 } (idxGet w1.stack (w1.pStack + 1))
      (by rw [hidx]; exact hf)
      (by show 0 ≤ w1.pStack + 1; rw [hp1']; omega)
      (by show w1.pStack + 1 < (w1.stack.length : Int); rw [hp1', hs1']; omega) rfl
  have hs2' : w2.stack = w1.stack := hs2
  have hp2' : w2.pStack = w1.pStack + 1 := hp2
  have hbase2' : w2.base = w1.base := hbase2
  have hdf : do_forward fs w1 = .ok w2 := by
    unfold do_forward
    rw [forward_stack_eq w1 (by rw [hp1']; omega) (by rw [hp1', hs1']; omega)]
    exact hw2
  have hstk2 : w2.stack = w.stack := by rw [hs2', hs1']
  have hps2 : w2.pStack = w.pStack := by rw [hp2', hp1']; omega
  have hb2 : w2.base = w.base := by rw [hbase2', hbase1']
  refine ⟨w1, w2, hdb, hdf, ?_, hstk2, hps2, hb2⟩
  rw [current_stack_eq w2 (by rw [hps2]; omega) (by rw [hps2, hstk2]; omega),
    current_stack_eq w (by omega) (by omega), hps2, hstk2]

/-- Closed instance of `back_forward_round_trip` on a two-page Gemini
history with the cursor on the top entry. -/
theorem back_forward_round_trip_witness :
    ∃ w1 w2, do_back fsC4 wC4Top = .ok w1 ∧ do_forward fsC4 w1 = .ok w2 ∧
      current_stack w2 = current_stack wC4Top ∧ w2.stack = wC4Top.stack ∧
      w2.pStack = wC4Top.pStack ∧ w2.base = wC4Top.base :=
  back_forward_round_trip fsC4 wC4Top (by decide) (by decide) (by decide) (by decide)

/-- C4 counterexample: with two history entries but the cursor on the
*first* one, `back()` re-dispatches on the site base (committing the index
page, which truncates the forward entry) and `forward()` then lands on the
index page: the final current place differs from the pre-back current
place and the history has changed. -/
theorem back_forward_from_bottom :
    current_stack wC4Bottom = "/site/a.gmi" ∧
    resOk (do_back fsC4 wC4Bottom) = some wC4Mid ∧
    resOk (do_forward fsC4 wC4Mid) = some wC4Mid ∧
    current_stack wC4Mid = "/site/index.gmi" ∧
    ¬ (current_stack wC4Mid = current_stack wC4Bottom) ∧
    ¬ (wC4Mid.stack = wC4Bottom.stack) := by
  refine ⟨by decide, by decide, by decide, by decide, by decide, by decide⟩

/-! ### C6 — orphan report versus the visited set -/

/-- C6 evaluated at the failing input: the gophermap links to the
directory `/sub`, which has no gophermap, so its listing is merged into
the visited set — but `os.listdir` yields *basenames*, so the set receives
`"a.txt"` while the orphan scan later tests the full path
`"/site/sub/a.txt"`, which was never added; the file the specification
says must not be reported is reported as an orphan. -/
theorem listed_dir_file_reported_orphan :
    gopher_hole 3 fsOrphan "/site/gophermap" = some ["/site/gophermap", "a.txt"] ∧
    "a.txt" ∈ ["/site/gophermap", "a.txt"] ∧
    ¬ ("/site/sub/a.txt" ∈ ["/site/gophermap", "a.txt"]) ∧
    orphan_files fsOrphan "/site" ["/site/gophermap", "a.txt"] = ["/site/sub/a.txt"] := by
  refine ⟨by decide, by decide, by decide, by decide⟩

/-! ### C7 — termination and the visited set of the offline walker -/

theorem extract_gemini_succ_eq (g : Nat) (fs : FS) (files : List String) (b lc n : String) :
    extract_links_gemini (g + 1) fs files b lc n =
      extract_gemini_body
        (fun fs2 fl b2 l2 n2 => extract_links_gemini g fs2 fl b2 l2 n2)
        fs files b lc n := rfl

theorem contains_mem (l : List String) (x : String) : l.contains x = true ↔ x ∈ l :=
  List.elem_iff

theorem addSet_mem (l : List String) (y x : String) (hx : x ∈ l) : x ∈ addSet l y := by
  unfold addSet
  split
  · exact hx
  · exact List.mem_append_left _ hx

theorem addSet_mem_self (l : List String) (y : String) : y ∈ addSet l y := by
  unfold addSet
  split
  · rename_i h
    exact (contains_mem l y).mp h
  · exact List.mem_append_right _ (by simp)

theorem run_links_mono (step : List String → String → Option (List String))
    (hstep : ∀ fl l r, step fl l = some r → ∀ x ∈ fl, x ∈ r) :
    ∀ (links fl r : List String),
      run_links step fl links = some r → ∀ x ∈ fl, x ∈ r := by
  intro links
  induction links with
  | nil =>
    intro fl r h x hx
    unfold run_links at h
    cases h
    exact hx
  | cons l ls ih =>
    intro fl r h x hx
    unfold run_links at h
    cases hs : step fl l with
    | none =>
      rw [hs] at h
      exact Option.noConfusion h
    | some fl2 =>
      rw [hs] at h
      exact ih fl2 r h x (hstep fl l fl2 hs x hx)

theorem extract_gemini_mono :
    ∀ (fuel : Nat) (fs : FS) (files : List String) (b lc n : String) (r : List String),
      extract_links_gemini fuel fs files b lc n = some r → ∀ x ∈ files, x ∈ r := by
  intro fuel
  induction fuel with
  | zero =>
    intro fs files b lc n r h
    exact Option.noConfusion h
  | succ g ih =>
    intro fs files b lc n r h
    rw [extract_gemini_succ_eq] at h
    unfold extract_gemini_body at h
    dsimp only at h
    set fN : String := if n ≠ "" ∧ strHead n = some '/' then b ++ n else lc ++ "/" ++ n with hfN
    cases hf : fs.isFile fN with
    | false =>
      rw [if_pos (by simp [hf])] at h
      cases h
      exact fun x hx => hx
    | true =>
      rw [if_neg (by simp [hf])] at h
      cases hc : files.contains fN with
      | true =>
        rw [if_pos hc] at h
        cases h
        exact fun x hx => hx
      | false =>
        rw [if_neg (by rw [hc]; exact Bool.false_ne_true)] at h
        cases hg : endsW fN ".gmi" with
        | false =>
          rw [if_pos (by simp [hg])] at h
          cases h
          exact fun x hx => addSet_mem _ _ _ hx
        | true =>
          rw [if_neg (by simp [hg])] at h
          intro x hx
          refine run_links_mono _ ?_ _ _ r h x (addSet_mem _ _ _ hx)
          intro fl l2 r2 hstep x2 hx2
          by_cases hlc : isLowerColon l2 = true
          · rw [if_pos hlc] at hstep
            cases hstep
            exact hx2
          · rw [if_neg hlc] at hstep
            exact ih fs fl b _ l2 r2 hstep x2 hx2

theorem countP_lt_of_strict (l : List String) (q1 q2 : String → Bool)
    (himp : ∀ x, q1 x = true → q2 x = true) (a : String) (ha : a ∈ l)
    (h1 : q1 a = false) (h2 : q2 a = true) :
    l.countP q1 < l.countP q2 := by
  induction l with
  | nil => cases ha
  | cons b bs ih =>
    rw [List.countP_cons, List.countP_cons]
    rcases List.mem_cons.mp ha with heq | hmem
    · subst heq
      have hle : bs.countP q1 ≤ bs.countP q2 := List.countP_mono_left (fun x _ => himp x)
      rw [h1, h2]
      simp only [Bool.false_eq_true, if_false, if_true]
      omega
    · have hlt := ih hmem
      have hif : (if q1 b = true then 1 else 0) ≤ (if q2 b = true then 1 else 0) := by
        by_cases hq : q1 b = true
        · rw [if_pos hq, if_pos (himp b hq)]
        · rw [if_neg hq]
          exact Nat.zero_le _
      omega

theorem unvisitedG_le_of_sub (fs : FS) (fl r : List String)
    (hsub : ∀ x ∈ fl, x ∈ r) : unvisitedG fs r ≤ unvisitedG fs fl := by
  unfold unvisitedG
  apply List.countP_mono_left
  intro p _ hp
  simp only [Bool.not_eq_true'] at hp ⊢
  cases hcl : fl.contains p with
  | false => rfl
  | true =>
    have hmem : p ∈ r := hsub p ((contains_mem fl p).mp hcl)
    rw [(contains_mem r p).mpr hmem] at hp
    exact absurd hp (by simp)

theorem unvisitedG_lt_of_insert (fs : FS) (files : List String) (p : String)
    (hp : fs.isFile p = true) (hnp : files.contains p = false) :
    unvisitedG fs (addSet files p) < unvisitedG fs files := by
  unfold unvisitedG
  have hpin : p ∈ fs.files.map Prod.fst := by
    unfold FS.isFile at hp
    rw [List.any_eq_true] at hp
    obtain ⟨e, he, heq⟩ := hp
    exact List.mem_map.mpr ⟨e, he, of_decide_eq_true heq⟩
  refine countP_lt_of_strict _ _ _ ?_ p hpin ?_ ?_
  · intro x hx
    simp only [Bool.not_eq_true'] at hx ⊢
    cases hcl : files.contains x with
    | false => rfl
    | true =>
      have hmem : x ∈ addSet files p := addSet_mem files p x ((contains_mem _ _).mp hcl)
      rw [(contains_mem _ _).mpr hmem] at hx
      exact absurd hx (by simp)
  · have hmem := addSet_mem_self files p
    rw [Bool.not_eq_false']
    exact (contains_mem _ _).mpr hmem
  · rw [hnp]
    rfl

theorem run_links_congr (P : List String → Prop)
    (step1 step2 : List String → String → Option (List String))
    (hag : ∀ fl l, P fl → step1 fl l = step2 fl l)
    (hpres : ∀ fl l r, P fl → step2 fl l = some r → P r) :
    ∀ (links fl : List String), P fl →
      run_links step1 fl links = run_links step2 fl links := by
  intro links
  induction links with
  | nil =>
    intro fl _
    rfl
  | cons l ls ih =>
    intro fl hP
    unfold run_links
    rw [hag fl l hP]
    cases h2 : step2 fl l with
    | none => rfl
    | some r => exact ih r (hpres fl l r hP h2)

theorem run_links_some (P : List String → Prop)
    (step : List String → String → Option (List String))
    (hstep : ∀ fl l, P fl → ∃ r, step fl l = some r ∧ P r) :
    ∀ (links fl : List String), P fl → ∃ r, run_links step fl links = some r := by
  intro links
  induction links with
  | nil =>
    intro fl _
    exact ⟨fl, rfl⟩
  | cons l ls ih =>
    intro fl hP
    obtain ⟨r, hr, hPr⟩ := hstep fl l hP
    obtain ⟨r2, hr2⟩ := ih r hPr
    refine ⟨r2, ?_⟩
    unfold run_links
    rw [hr]
    exact hr2

theorem extract_gemini_fuel_step :
    ∀ (fuel : Nat) (fs : FS) (files : List String) (b lc n : String),
      unvisitedG fs files < fuel →
      extract_links_gemini (fuel + 1) fs files b lc n =
        extract_links_gemini fuel fs files b lc n := by
  intro fuel
  induction fuel with
  | zero =>
    intro fs files b lc n h
    exact absurd h (by omega)
  | succ g ih =>
    intro fs files b lc n h
    rw [extract_gemini_succ_eq (g + 1), extract_gemini_succ_eq g]
    unfold extract_gemini_body
    dsimp only
    set fN : String := if n ≠ "" ∧ strHead n = some '/' then b ++ n else lc ++ "/" ++ n with hfN
    cases hf : fs.isFile fN with
    | false => simp [hf]
    | true =>
      cases hc : files.contains fN with
      | true => simp [hf, hc]
      | false =>
        cases hg : endsW fN ".gmi" with
        | false => simp [hf, hc, hg]
        | true =>
          simp only [hf, hc, hg, Bool.not_true, Bool.not_false, Bool.false_eq_true,
            if_false, if_true]
          refine run_links_congr (fun fl => unvisitedG fs fl < g) _ _ ?_ ?_ _ _ ?_
          · intro fl l hPfl
            dsimp only
            by_cases hlc : isLowerColon l = true
            · rw [if_pos hlc, if_pos hlc]
            · rw [if_neg hlc, if_neg hlc]
              exact ih fs fl b (pyDirname fN) l hPfl
          · intro fl l r hPfl hstep
            by_cases hlc : isLowerColon l = true
            · rw [if_pos hlc] at hstep
              cases hstep
              exact hPfl
            · rw [if_neg hlc] at hstep
              have hsub := extract_gemini_mono g fs fl b (pyDirname fN) l r hstep
              exact lt_of_le_of_lt (unvisitedG_le_of_sub fs fl r hsub) hPfl
          · have hlt := unvisitedG_lt_of_insert fs files fN hf hc
            omega

theorem extract_gemini_fuel_add :
    ∀ (k fuel : Nat) (fs : FS) (files : List String) (b lc n : String),
      unvisitedG fs files < fuel →
      extract_links_gemini (fuel + k) fs files b lc n =
        extract_links_gemini fuel fs files b lc n := by
  intro k
  induction k with
  | zero =>
    intro fuel fs files b lc n _
    rfl
  | succ j ihj =>
    intro fuel fs files b lc n h
    have h1 : fuel + (j + 1) = (fuel + j) + 1 := by omega
    rw [h1, extract_gemini_fuel_step (fuel + j) fs files b lc n (by omega)]
    exact ihj fuel fs files b lc n h

theorem extract_gemini_canonical (fs : FS) (files : List String) (b lc n : String)
    (fuel : Nat) (h : unvisitedG fs files < fuel) :
    extract_links_gemini fuel fs files b lc n =
      extract_links_gemini (unvisitedG fs files + 1) fs files b lc n := by
  have hk : fuel = (unvisitedG fs files + 1) + (fuel - (unvisitedG fs files + 1)) := by omega
  conv_lhs => rw [hk]
  exact extract_gemini_fuel_add (fuel - (unvisitedG fs files + 1))
    (unvisitedG fs files + 1) fs files b lc n (by omega)

theorem extract_gemini_some :
    ∀ (fuel : Nat) (fs : FS) (files : List String) (b lc n : String),
      unvisitedG fs files < fuel →
      ∃ r, extract_links_gemini fuel fs files b lc n = some r := by
  intro fuel
  induction fuel with
  | zero =>
    intro fs files b lc n h
    exact absurd h (by omega)
  | succ g ih =>
    intro fs files b lc n h
    rw [extract_gemini_succ_eq]
    unfold extract_gemini_body
    dsimp only
    set fN : String := if n ≠ "" ∧ strHead n = some '/' then b ++ n else lc ++ "/" ++ n with hfN
    cases hf : fs.isFile fN with
    | false => exact ⟨files, by simp [hf]⟩
    | true =>
      cases hc : files.contains fN with
      | true => exact ⟨files, by simp [hf, hc]⟩
      | false =>
        cases hg : endsW fN ".gmi" with
        | false => exact ⟨addSet files fN, by simp [hf, hc, hg]⟩
        | true =>
          simp only [hf, hc, hg, Bool.not_true, Bool.not_false, Bool.false_eq_true,
            if_false, if_true]
          have hP0 : unvisitedG fs (addSet files fN) < g := by
            have hlt := unvisitedG_lt_of_insert fs files fN hf hc
            omega
          refine run_links_some (fun fl => unvisitedG fs fl < g) _ ?_ _ _ hP0
          intro fl l hPfl
          dsimp only
          by_cases hlc : isLowerColon l = true
          · rw [if_pos hlc]
            exact ⟨fl, rfl, hPfl⟩
          · rw [if_neg hlc]
            obtain ⟨r, hr⟩ := ih fs fl b (pyDirname fN) l hPfl
            refine ⟨r, hr, ?_⟩
            have hsub := extract_gemini_mono g fs fl b (pyDirname fN) l r hr
            exact lt_of_le_of_lt (unvisitedG_le_of_sub fs fl r hsub) hPfl

theorem extract_gopher_succ_eq (g : Nat) (fs : FS) (files : List String) (b lc n : String) :
    extract_links_gopher (g + 1) fs files b lc n =
      extract_gopher_body
        (fun fs2 fl b2 l2 n2 => extract_links_gopher g fs2 fl b2 l2 n2)
        fs files b lc n := rfl

theorem addSetAll_mem (l xs : List String) (x : String) (hx : x ∈ l) :
    x ∈ addSetAll l xs := by
  induction xs generalizing l with
  | nil => exact hx
  | cons y ys ih => exact ih (addSet l y) (addSet_mem l y x hx)

theorem extract_gopher_mono :
    ∀ (fuel : Nat) (fs : FS) (files : List String) (b lc n : String) (r : List String),
      extract_links_gopher fuel fs files b lc n = some r → ∀ x ∈ files, x ∈ r := by
  intro fuel
  induction fuel with
  | zero =>
    intro fs files b lc n r h
    exact Option.noConfusion h
  | succ g ih =>
    intro fs files b lc n r h
    rw [extract_gopher_succ_eq] at h
    unfold extract_gopher_body at h
    dsimp only at h
    set fN : String := gopher_target fs
      (if n ≠ "" ∧ strHead n = some '/' then b ++ n else lc ++ "/" ++ n) with hfN
    cases hex : (!fs.isFile fN && !fs.isDir fN) with
    | true =>
      rw [if_pos hex] at h
      cases h
      exact fun x hx => hx
    | false =>
      rw [if_neg (by rw [hex]; exact Bool.false_ne_true)] at h
      cases hc : files.contains fN with
      | true =>
        rw [if_pos hc] at h
        cases h
        exact fun x hx => hx
      | false =>
        rw [if_neg (by rw [hc]; exact Bool.false_ne_true)] at h
        have hsup : ∀ x ∈ files,
            x ∈ (if (if fs.isDir fN then fs.listdir fN else []) ≠ [] then
              addSetAll files (if fs.isDir fN then fs.listdir fN else [])
              else addSet files fN) := by
          intro x hx
          by_cases hne : (if fs.isDir fN then fs.listdir fN else []) ≠ []
          · rw [if_pos hne]
            exact addSetAll_mem files _ x hx
          · rw [if_neg hne]
            exact addSet_mem files fN x hx
        cases hg : endsW fN "gophermap" with
        | false =>
          rw [if_pos (by rw [hg]; rfl)] at h
          cases h
          exact hsup
        | true =>
          rw [if_neg (by rw [hg]; simp)] at h
          cases hd : fs.isDir fN with
          | true =>
            rw [if_pos hd] at h
            exact Option.noConfusion h
          | false =>
            rw [if_neg (by rw [hd]; exact Bool.false_ne_true)] at h
            intro x hx
            refine run_links_mono _ ?_ _ _ r h x (hsup x hx)
            intro fl l2 r2 hstep x2 hx2
            by_cases hurl : startsW l2 "hURL:" = true
            · rw [if_pos hurl] at hstep
              cases hstep
              exact hx2
            · rw [if_neg hurl] at hstep
              exact ih fs fl b _ (strDrop l2 1) r2 hstep x2 hx2

theorem extract_gopher_fuel_step :
    ∀ (fuel : Nat) (fs : FS) (files : List String) (b lc n : String),
      unvisitedG fs files < fuel →
      extract_links_gopher (fuel + 1) fs files b lc n =
        extract_links_gopher fuel fs files b lc n := by
  intro fuel
  induction fuel with
  | zero =>
    intro fs files b lc n h
    exact absurd h (by omega)
  | succ g ih =>
    intro fs files b lc n h
    rw [extract_gopher_succ_eq (g + 1), extract_gopher_succ_eq g]
    unfold extract_gopher_body
    dsimp only
    set fN : String := gopher_target fs
      (if n ≠ "" ∧ strHead n = some '/' then b ++ n else lc ++ "/" ++ n) with hfN
    cases hex : (!fs.isFile fN && !fs.isDir fN) with
    | true => simp
    | false =>
      cases hc : files.contains fN with
      | true => simp [hc]
      | false =>
        cases hd : fs.isDir fN with
        | true => simp [hc, hd]
        | false =>
          cases hg : endsW fN "gophermap" with
          | false => simp [hc, hd, hg]
          | true =>
            have hf : fs.isFile fN = true := by
              cases hisf : fs.isFile fN with
              | false =>
                rw [hisf, hd] at hex
                simp at hex
              | true => rfl
            simp only [Bool.false_eq_true, Bool.not_true, if_false, ne_eq,
              eq_self_iff_true, not_true, if_true]
            refine run_links_congr (fun fl => unvisitedG fs fl < g) _ _ ?_ ?_ _ _ ?_
            · intro fl l hPfl
              dsimp only
              by_cases hurl : startsW l "hURL:" = true
              · rw [if_pos hurl, if_pos hurl]
              · rw [if_neg hurl, if_neg hurl]
                exact ih fs fl b (pyDirname fN) (strDrop l 1) hPfl
            · intro fl l r hPfl hstep
              by_cases hurl : startsW l "hURL:" = true
              · rw [if_pos hurl] at hstep
                cases hstep
                exact hPfl
              · rw [if_neg hurl] at hstep
                have hsub := extract_gopher_mono g fs fl b (pyDirname fN) (strDrop l 1) r hstep
                exact lt_of_le_of_lt (unvisitedG_le_of_sub fs fl r hsub) hPfl
            · have hlt := unvisitedG_lt_of_insert fs files fN hf hc
              omega

theorem extract_gopher_fuel_add :
    ∀ (k fuel : Nat) (fs : FS) (files : List String) (b lc n : String),
      unvisitedG fs files < fuel →
      extract_links_gopher (fuel + k) fs files b lc n =
        extract_links_gopher fuel fs files b lc n := by
  intro k
  induction k with
  | zero =>
    intro fuel fs files b lc n _
    rfl
  | succ j ihj =>
    intro fuel fs files b lc n h
    have h1 : fuel + (j + 1) = (fuel + j) + 1 := by omega
    rw [h1, extract_gopher_fuel_step (fuel + j) fs files b lc n (by omega)]
    exact ihj fuel fs files b lc n h

theorem extract_gopher_canonical (fs : FS) (files : List String) (b lc n : String)
    (fuel : Nat) (h : unvisitedG fs files < fuel) :
    extract_links_gopher fuel fs files b lc n =
      extract_links_gopher (unvisitedG fs files + 1) fs files b lc n := by
  have hk : fuel = (unvisitedG fs files + 1) + (fuel - (unvisitedG fs files + 1)) := by omega
  conv_lhs => rw [hk]
  exact extract_gopher_fuel_add (fuel - (unvisitedG fs files + 1))
    (unvisitedG fs files + 1) fs files b lc n (by omega)

/-- C7 counterexample: the Gopher extractor's visited set is not "exactly
the set of files reachable from the entry file".  On a hole whose map
links to a gophermap-less directory, the run terminates but its visited
set contains the bare basename `"a.txt"` — not a file of the filesystem at
all — while the regular file `/site/sub/a.txt` that the listing shows is
absent from it. -/
theorem gopher_visited_not_reachable :
    gopher_hole 3 fsOrphan "/site/gophermap" = some ["/site/gophermap", "a.txt"] ∧
    "a.txt" ∈ ["/site/gophermap", "a.txt"] ∧
    fsOrphan.isFile "a.txt" = false ∧
    fsOrphan.isFile "/site/sub/a.txt" = true ∧
    ¬ ("/site/sub/a.txt" ∈ ["/site/gophermap", "a.txt"]) := by
  refine ⟨by decide, by decide, by decide, by decide, by decide⟩

/-- C7 amended and proved: the recursive extraction of *both* offline
extractors terminates on every link graph — any fuel above the number of
not-yet-visited files produces the same result, because a file already in
the visited set contributes its links only once — and on the two-file
cyclic Gemini capsule (the index links to `b.gmi`, which links back) it
visits exactly the two files.  (For the Gopher extractor the visited set
need not equal the reachable files: see the counterexample.) -/
theorem offline_walker_terminates :
    (∀ (fs : FS) (files : List String) (b lc n : String) (fuel : Nat),
      unvisitedG fs files < fuel →
      extract_links_gemini fuel fs files b lc n =
        extract_links_gemini (unvisitedG fs files + 1) fs files b lc n ∧
      ∃ r, extract_links_gemini fuel fs files b lc n = some r) ∧
    (∀ (fs : FS) (files : List String) (b lc n : String) (fuel : Nat),
      unvisitedG fs files < fuel →
      extract_links_gopher fuel fs files b lc n =
        extract_links_gopher (unvisitedG fs files + 1) fs files b lc n) ∧
    (∀ fuel : Nat, 2 < fuel →
      gemini_capsule fuel fsCycle "/site/index.gmi" =
        some ["/site/index.gmi", "/site/b.gmi"] ∧
      ∀ x, x ∈ ["/site/index.gmi", "/site/b.gmi"] ↔
        (x = "/site/index.gmi" ∨ x = "/site/b.gmi")) := by
  refine ⟨?_, ?_, ?_⟩
  · intro fs files b lc n fuel h
    exact ⟨extract_gemini_canonical fs files b lc n fuel h,
      extract_gemini_some fuel fs files b lc n h⟩
  · intro fs files b lc n fuel h
    exact extract_gopher_canonical fs files b lc n fuel h
  · intro fuel hfuel
    constructor
    · unfold gemini_capsule
      rw [extract_gemini_canonical fsCycle []
        (strDropRight "/site/index.gmi" (strLen "/index.gmi"))
        (strDropRight "/site/index.gmi" (strLen "/index.gmi")) "/index.gmi" fuel
        (by have hu : unvisitedG fsCycle [] = 2 := by decide
            omega)]
      decide
    · intro x
      simp

/-- Closed instance of `offline_walker_terminates`: the cyclic capsule
with fuel 3, and fuel-stability of the Gopher extractor on the orphan
hole. -/
theorem offline_walker_terminates_witness :
    gemini_capsule 3 fsCycle "/site/index.gmi" =
      some ["/site/index.gmi", "/site/b.gmi"] ∧
    extract_links_gopher 5 fsOrphan [] "/site" "/site" "/gophermap" =
      extract_links_gopher (unvisitedG fsOrphan [] + 1) fsOrphan [] "/site" "/site" "/gophermap" :=
  ⟨(offline_walker_terminates.2.2 3 (by omega)).1,
   offline_walker_terminates.2.1 fsOrphan [] "/site" "/site" "/gophermap" 5
     (by have hu : unvisitedG fsOrphan [] = 2 := by decide
         omega)⟩
